import Mathlib

/-!
Verification of the go-hdb driver core against its specification.

This file gives a shallow embedding of the parts of the go-hdb source that
the checked claims are about, and proves (or refutes) each claim over that
embedding.  Every definition is translated from the Go source; the few
definitions that model code living outside the provided sources (the byte
codec primitives and the cesu8 package) carry a doc comment starting with
"Modelled from the spec:".

Bytes are modelled as natural numbers below 256, byte streams as lists,
machine integers as Int with explicit wrap-around where the source converts
between widths, and fallible Go functions as Except / Option values.
-/

namespace GoHdb

/-! ## Auth sub-parameter size encoding (auth/auth.go, subPrmsSize) -/

namespace Auth

/-- Translation of the constant maxSubPrmsSize1ByteLen (= 245) from auth.go. -/
def maxSubPrmsSize1ByteLen : Nat := 245

/-- Translation of the constant subPrmsSize2ByteIndicator (= 255) from auth.go. -/
def subPrmsSize2ByteIndicator : Nat := 255

/-- Translation of subPrmsSize.encode from auth.go: a size up to 245 is written
as one byte; a size up to 65535 is written as the indicator byte 255 followed
by the size as a big-endian uint16; larger sizes yield an encode error and no
bytes are written. -/
def subPrmsSizeEncode (s : Nat) : Except String (List Nat) :=
  if s ≤ maxSubPrmsSize1ByteLen then .ok [s]
  else if s ≤ 65535 then .ok [subPrmsSize2ByteIndicator, s / 256, s % 256]
  else .error ("invalid subparameter size " ++ toString s ++ " - maximum 42")

/-- Translation of subPrmsSize.decode from auth.go: reads one byte; a value up
to 245 is the size itself; the value 255 announces a big-endian uint16 size in
the next two bytes; the values 246..254 make the source panic (modelled as
none), as does an exhausted byte stream. The remaining bytes are returned. -/
def subPrmsSizeDecode : List Nat → Option (Nat × List Nat)
  | [] => none
  | b :: rest =>
    if b ≤ maxSubPrmsSize1ByteLen then some (b, rest)
    else if b = subPrmsSize2ByteIndicator then
      match rest with
      | b1 :: b2 :: rest2 => some (b1 * 256 + b2, rest2)
      | _ => none
    else none

/-- Translation of subPrmsSize.fieldSize from auth.go. -/
def subPrmsSizeFieldSize (s : Nat) : Nat :=
  if s > maxSubPrmsSize1ByteLen then 3 else 1

end Auth

/-- C3: for every n in [0, 65535] decoding the encoding of an auth
sub-parameter size n yields n again (with any trailing bytes untouched), the
encoding uses the one-byte form exactly when n ≤ 245 and otherwise the
three-byte form 255 ++ big-endian uint16, and for every n > 65535 the encoder
fails without producing bytes. -/
theorem auth_subPrmsSize_roundtrip (n : Nat) (rest : List Nat) :
    (n ≤ 65535 →
      ∃ bs, Auth.subPrmsSizeEncode n = .ok bs ∧
        Auth.subPrmsSizeDecode (bs ++ rest) = some (n, rest) ∧
        (n ≤ 245 → bs = [n]) ∧
        (245 < n → bs = [255, n / 256, n % 256])) ∧
    (65535 < n → ∃ msg, Auth.subPrmsSizeEncode n = .error msg) := by
  constructor
  · intro hn
    by_cases h1 : n ≤ 245
    · refine ⟨[n], ?_, ?_, fun _ => rfl, fun h => absurd h1 (by omega)⟩
      · simp [Auth.subPrmsSizeEncode, Auth.maxSubPrmsSize1ByteLen, h1]
      · simp [Auth.subPrmsSizeDecode, Auth.maxSubPrmsSize1ByteLen, h1]
    · refine ⟨[255, n / 256, n % 256], ?_, ?_, fun h => absurd h h1, fun _ => rfl⟩
      · simp [Auth.subPrmsSizeEncode, Auth.maxSubPrmsSize1ByteLen,
          Auth.subPrmsSize2ByteIndicator, h1, hn]
      · simp [Auth.subPrmsSizeDecode, Auth.maxSubPrmsSize1ByteLen,
          Auth.subPrmsSize2ByteIndicator, h1]
        omega
  · intro hn
    refine ⟨"invalid subparameter size " ++ toString n ++ " - maximum 42", ?_⟩
    unfold Auth.subPrmsSizeEncode
    rw [if_neg (by unfold Auth.maxSubPrmsSize1ByteLen; omega), if_neg (by omega)]

/-- Witness for C3: the round trip at n = 250 (three-byte form), n = 7
(one-byte form) and the encode error at n = 70000. -/
theorem auth_subPrmsSize_roundtrip_witness :
    (∃ bs, Auth.subPrmsSizeEncode 250 = .ok bs ∧
        Auth.subPrmsSizeDecode (bs ++ [9]) = some (250, [9]) ∧
        (250 ≤ 245 → bs = [250]) ∧
        (245 < 250 → bs = [255, 250 / 256, 250 % 256])) ∧
    (∃ bs, Auth.subPrmsSizeEncode 7 = .ok bs ∧
        Auth.subPrmsSizeDecode (bs ++ []) = some (7, []) ∧
        (7 ≤ 245 → bs = [7]) ∧
        (245 < 7 → bs = [255, 7 / 256, 7 % 256])) ∧
    (∃ msg, Auth.subPrmsSizeEncode 70000 = .error msg) :=
  ⟨(auth_subPrmsSize_roundtrip 250 [9]).1 (by decide),
   (auth_subPrmsSize_roundtrip 7 []).1 (by decide),
   (auth_subPrmsSize_roundtrip 70000 []).2 (by decide)⟩

/-! ## Part header argument count (PartHeader.setNumArg / numArg) -/

namespace Protocol

/-- Conversion of an Int to the value of the Go int16 obtained by truncating
conversion, as in int16(numArg). -/
def toInt16 (i : Int) : Int := (i + 32768) % 65536 - 32768

/-- Conversion of an Int to the value of the Go int32 obtained by truncating
conversion, as in int32(numArg). -/
def toInt32 (i : Int) : Int := (i + 2147483648) % 4294967296 - 2147483648

/-- Translation of the sentinel bigNumArgInd (= -1). -/
def bigNumArgInd : Int := -1

/-- PartHeader fields relevant to argument counting; the Go struct also
carries the part kind, attributes, buffer length and buffer size, which
setNumArg and numArg do not touch. -/
structure PartHeader where
  argumentCount : Int
  bigArgumentCount : Int
deriving Repr, DecidableEq

/-- Translation of PartHeader.setNumArg: numArg ≤ MaxInt16 is stored in the
16-bit argumentCount field, numArg ≤ MaxInt32 is stored in the 32-bit
bigArgumentCount field with argumentCount set to the sentinel -1, and larger
values yield an error. -/
def PartHeader.setNumArg (h : PartHeader) (numArg : Int) : Except String PartHeader :=
  if numArg ≤ 32767 then
    .ok { h with argumentCount := toInt16 numArg, bigArgumentCount := 0 }
  else if numArg ≤ 2147483647 then
    .ok { h with argumentCount := bigNumArgInd, bigArgumentCount := toInt32 numArg }
  else
    .error ("maximum number of arguments " ++ toString numArg ++ " exceeded")

/-- Translation of PartHeader.numArg: the sentinel -1 in argumentCount selects
the 32-bit field. -/
def PartHeader.numArg (h : PartHeader) : Int :=
  if h.argumentCount = bigNumArgInd then h.bigArgumentCount else h.argumentCount

end Protocol

/-- C4: for every argument count n with 0 ≤ n ≤ 2^31-1, setNumArg n succeeds
and numArg returns n; the 16-bit field holds n exactly when n ≤ 32767, and
for larger n the 16-bit field holds the sentinel -1 while the 32-bit field
holds n; for n > 2^31-1 setNumArg returns an error. -/
theorem partHeader_setNumArg_numArg (h : GoHdb.Protocol.PartHeader) (n : Int) (h0 : 0 ≤ n) :
    (n ≤ 2147483647 →
      ∃ h2, h.setNumArg n = .ok h2 ∧ h2.numArg = n ∧
        (n ≤ 32767 → h2.argumentCount = n ∧ h2.bigArgumentCount = 0) ∧
        (32767 < n → h2.argumentCount = -1 ∧ h2.bigArgumentCount = n)) ∧
    (2147483647 < n → ∃ msg, h.setNumArg n = .error msg) := by
  constructor
  · intro hn
    by_cases hsmall : n ≤ 32767
    · have h16 : GoHdb.Protocol.toInt16 n = n := by
        unfold GoHdb.Protocol.toInt16; omega
      refine ⟨⟨GoHdb.Protocol.toInt16 n, 0⟩,
        ?_, ?_, fun _ => ⟨h16, rfl⟩, fun hgt => absurd hsmall (by omega)⟩
      · simp [GoHdb.Protocol.PartHeader.setNumArg, hsmall]
      · simp [GoHdb.Protocol.PartHeader.numArg, GoHdb.Protocol.bigNumArgInd, h16]
        omega
    · have h32 : GoHdb.Protocol.toInt32 n = n := by
        unfold GoHdb.Protocol.toInt32; omega
      refine ⟨⟨GoHdb.Protocol.bigNumArgInd, GoHdb.Protocol.toInt32 n⟩,
        ?_, ?_, fun hle => absurd hle hsmall, fun _ => ⟨rfl, h32⟩⟩
      · simp [GoHdb.Protocol.PartHeader.setNumArg, hsmall, hn]
      · simp [GoHdb.Protocol.PartHeader.numArg, GoHdb.Protocol.bigNumArgInd, h32]
  · intro hn
    refine ⟨"maximum number of arguments " ++ toString n ++ " exceeded", ?_⟩
    unfold GoHdb.Protocol.PartHeader.setNumArg
    rw [if_neg (by omega), if_neg (by omega)]

/-- Witness for C4: a small count (7), a large count (40000) and the error
case (2^31) on a concrete header. -/
theorem partHeader_setNumArg_numArg_witness :
    (∃ h2, (GoHdb.Protocol.PartHeader.mk 0 0).setNumArg 40000 = .ok h2 ∧
        h2.numArg = 40000 ∧
        ((40000 : Int) ≤ 32767 → h2.argumentCount = 40000 ∧ h2.bigArgumentCount = 0) ∧
        ((32767 : Int) < 40000 → h2.argumentCount = -1 ∧ h2.bigArgumentCount = 40000)) ∧
    (∃ msg, (GoHdb.Protocol.PartHeader.mk 0 0).setNumArg 2147483648 = .error msg) :=
  ⟨(partHeader_setNumArg_numArg (GoHdb.Protocol.PartHeader.mk 0 0) 40000 (by decide)).1
      (by decide),
   (partHeader_setNumArg_numArg (GoHdb.Protocol.PartHeader.mk 0 0) 2147483648 (by decide)).2
      (by decide)⟩

/-! ## Connection attributes (connAttrs setters) -/

namespace Attrs

/-- Translation of minTimeout (= 0 seconds) from the connAttrs source. -/
def minTimeout : Int := 0

/-- Translation of minBulkSize (= 1). -/
def minBulkSize : Int := 1

/-- Translation of maxBulkSize = p.MaxNumArg = math.MaxInt32. -/
def maxBulkSize : Int := 2147483647

/-- Translation of minFetchSize (= 1). -/
def minFetchSize : Int := 1

/-- Translation of minLobChunkSize (= 128). -/
def minLobChunkSize : Int := 128

/-- Translation of maxLobChunkSize (= 1 <<< 14 = 16384). -/
def maxLobChunkSize : Int := 16384

/-- Modelled from the spec: the protocol constant DfvLevel8, the default
data-format-version level 8 (the constant itself lives in a protocol source
file that is not part of the provided sources; the spec fixes the default
dfv to 8). -/
def DfvLevel8 : Int := 8

/-- Translation of defaultDfv = p.DfvLevel8. -/
def defaultDfv : Int := DfvLevel8

/-- Translation of connAttrs._setTimeout: values below minTimeout saturate to
minTimeout; the setter cannot fail. -/
def setTimeout (timeout : Int) : Int :=
  if timeout < minTimeout then minTimeout else timeout

/-- Translation of connAttrs._setBulkSize: values are saturated into
[minBulkSize, maxBulkSize]; the setter cannot fail. -/
def setBulkSize (bulkSize : Int) : Int :=
  if bulkSize < minBulkSize then minBulkSize
  else if bulkSize > maxBulkSize then maxBulkSize
  else bulkSize

/-- Translation of connAttrs._setFetchSize: values below minFetchSize saturate
to minFetchSize; the setter cannot fail. -/
def setFetchSize (fetchSize : Int) : Int :=
  if fetchSize < minFetchSize then minFetchSize else fetchSize

/-- Translation of connAttrs.setLobChunkSize: values are saturated into
[minLobChunkSize, maxLobChunkSize]; the setter cannot fail. -/
def setLobChunkSize (lobChunkSize : Int) : Int :=
  if lobChunkSize < minLobChunkSize then minLobChunkSize
  else if lobChunkSize > maxLobChunkSize then maxLobChunkSize
  else lobChunkSize

/-- Translation of connAttrs.setDfv: an unsupported level is replaced by the
default level 8; the predicate p.IsSupportedDfv lives in a protocol source
file that is not part of the provided sources and is therefore passed in as a
parameter; the setter cannot fail. -/
def setDfv (isSupportedDfv : Int → Bool) (dfv : Int) : Int :=
  if !isSupportedDfv dfv then defaultDfv else dfv

end Attrs

/-- C7: every connection-attribute setter saturates to the documented bounds
instead of rejecting: setTimeout stores max(v, 0), setBulkSize stores v
clamped to [1, 2^31-1], setFetchSize stores max(v, 1), setLobChunkSize stores
v clamped to [128, 16384], and setDfv stores v when it is a supported dfv
level and the default 8 otherwise; every setter is a total function, so none
returns an error. -/
theorem connAttrs_setters_saturate (v : Int) (isSupportedDfv : Int → Bool) :
    Attrs.setTimeout v = max v 0 ∧
    Attrs.setBulkSize v = max 1 (min v 2147483647) ∧
    Attrs.setFetchSize v = max v 1 ∧
    Attrs.setLobChunkSize v = max 128 (min v 16384) ∧
    Attrs.setDfv isSupportedDfv v = (if isSupportedDfv v then v else 8) := by
  refine ⟨?_, ?_, ?_, ?_, ?_⟩
  · unfold Attrs.setTimeout Attrs.minTimeout
    split <;> omega
  · unfold Attrs.setBulkSize Attrs.minBulkSize Attrs.maxBulkSize
    split <;> omega
  · unfold Attrs.setFetchSize Attrs.minFetchSize
    split <;> omega
  · unfold Attrs.setLobChunkSize Attrs.minLobChunkSize Attrs.maxLobChunkSize
    split <;> omega
  · unfold Attrs.setDfv Attrs.defaultDfv Attrs.DfvLevel8
    cases h : isSupportedDfv v <;> simp [h]

/-! ## Parameter field options (parameter.go, ParameterField.Nullable) -/

namespace Protocol

/-- Translation of the parameterOptions flag poMandatory (= 0x01); the options
value itself is an int8 bitmask. -/
def poMandatory : Nat := 1

/-- Translation of the parameterOptions flag poOptional (= 0x02). -/
def poOptional : Nat := 2

/-- Translation of the parameterOptions flag poDefault (= 0x04). -/
def poDefault : Nat := 4

/-- Translation of ParameterField.Nullable: the source compares the whole
options bitmask for equality with poOptional. -/
def Nullable (parameterOptions : Nat) : Bool :=
  parameterOptions == poOptional

end Protocol

/-- Counterexample for C9: the options bitmask mandatory|optional (= 3)
includes the optional flag, yet Nullable returns false, refuting the claim
that Nullable is true whenever the bitmask includes optional regardless of
the other flags. -/
theorem nullable_not_bitmask_test :
    (GoHdb.Protocol.poMandatory ||| GoHdb.Protocol.poOptional) &&&
        GoHdb.Protocol.poOptional ≠ 0 ∧
    GoHdb.Protocol.Nullable
        (GoHdb.Protocol.poMandatory ||| GoHdb.Protocol.poOptional) = false := by
  decide

/-- C9 (amended): Nullable returns true exactly when the options bitmask is
equal to the optional flag alone; any additionally set flag (mandatory,
default) makes it return false. -/
theorem nullable_iff_options_eq_optional (opts : Nat) :
    GoHdb.Protocol.Nullable opts = true ↔ opts = GoHdb.Protocol.poOptional := by
  simp [GoHdb.Protocol.Nullable]

/-! ## Per-connection lock (connLock.tryLock / unlock) -/

namespace Lock

/-- Translation of the lock-reason constant lrNestedQuery (= 1). -/
def lrNestedQuery : Int := 1

/-- State of a connLock: the atomic lockReason value and whether the
connection mutex connMu is held.  The short-lived tryLock mutex mu only
serialises tryLock itself and carries no state between calls. -/
structure ConnLock where
  lockReason : Int
  connLocked : Bool
deriving Repr, DecidableEq

/-- Result of a tryLock attempt: the lock was acquired, the nested-query
error ErrNestedQuery was returned, or the caller blocks on the connection
mutex (connMu held by someone else with a reason other than nested-query). -/
inductive LockStatus where
  | acquired
  | errNestedQuery
  | blocked
deriving Repr, DecidableEq

/-- Translation of connLock.tryLock: under the tryLock mutex, a lockReason of
lrNestedQuery is rejected with ErrNestedQuery before touching the connection
mutex; otherwise the connection mutex is taken (blocking while held) and the
new lock reason is stored. -/
def tryLock (l : ConnLock) (lockReason : Int) : LockStatus × ConnLock :=
  if l.lockReason = lrNestedQuery then (.errNestedQuery, l)
  else if l.connLocked then (.blocked, l)
  else (.acquired, ⟨lockReason, true⟩)

/-- Translation of connLock.unlock: the lock reason is reset to 0 and the
connection mutex is released. -/
def unlock (_l : ConnLock) : ConnLock := ⟨0, false⟩

end Lock

/-- C5: once tryLock has acquired the lock with the nested-query reason (as
conn.QueryContext does for a streaming cursor), every further tryLock with
any reason returns the nested-query error and leaves the lock state
unchanged; after unlock (run when the cursor closes) the lock reason is 0
again and any tryLock succeeds. -/
theorem connLock_nested_query_guard (l : Lock.ConnLock) (l2 : Lock.ConnLock)
    (hacq : Lock.tryLock l Lock.lrNestedQuery = (.acquired, l2)) :
    (∀ reason : Int, Lock.tryLock l2 reason = (.errNestedQuery, l2)) ∧
    (Lock.unlock l2).lockReason = 0 ∧
    (∀ reason : Int,
      Lock.tryLock (Lock.unlock l2) reason = (.acquired, ⟨reason, true⟩)) := by
  unfold Lock.tryLock at hacq
  by_cases h1 : l.lockReason = Lock.lrNestedQuery
  · simp [h1] at hacq
  · by_cases h2 : l.connLocked
    · simp [h1, h2] at hacq
    · simp [h1, h2] at hacq
      subst hacq
      refine ⟨fun reason => ?_, rfl, fun reason => ?_⟩
      · simp [Lock.tryLock, Lock.lrNestedQuery]
      · simp [Lock.tryLock, Lock.unlock, Lock.lrNestedQuery]

/-- Witness for C5: the guard on an initially unlocked connection. -/
theorem connLock_nested_query_guard_witness :
    (∀ reason : Int,
      Lock.tryLock ⟨Lock.lrNestedQuery, true⟩ reason =
        (.errNestedQuery, ⟨Lock.lrNestedQuery, true⟩)) ∧
    (Lock.unlock ⟨Lock.lrNestedQuery, true⟩).lockReason = 0 ∧
    (∀ reason : Int,
      Lock.tryLock (Lock.unlock ⟨Lock.lrNestedQuery, true⟩) reason =
        (.acquired, ⟨reason, true⟩)) :=
  connLock_nested_query_guard ⟨0, false⟩ ⟨Lock.lrNestedQuery, true⟩ (by decide)

/-! ## Database connection cancellation (dbConn.cancel / Read / Write) -/

namespace Conn

/-- Errors a dbConn operation can surface: the database/sql/driver bad
connection sentinel, the internal cancel/close markers, and wrapped transport
errors. -/
inductive GoError where
  | errBadConn
  | errCancelled
  | errClosed
  | ioError (msg : String)
  | hdbError (code : Int) (text : String)
deriving Repr, DecidableEq

/-- State of a dbConn: the atomically accessed cancelled flag, the latched
lastError and the closed flag; the wrapped net.Conn and the metrics sink are
kept outside the state and are modelled by the outcome argument of read and
write. -/
structure DbConn where
  cancelled : Bool
  lastError : Option GoError
  closed : Bool
deriving Repr, DecidableEq

/-- Events a dbConn operation performs on the underlying socket. -/
inductive SocketEvent where
  | sockRead
  | sockWrite
deriving Repr, DecidableEq

/-- Outcome the underlying net.Conn would produce for one read or write call
(byte count and error), used to model the socket. -/
structure SocketOutcome where
  n : Nat
  err : Option String
deriving Repr, DecidableEq

/-- Translation of dbConn.cancel: stores 1 into the cancelled flag and latches
errCancelled as last error. -/
def DbConn.cancel (c : DbConn) : DbConn :=
  { c with cancelled := true, lastError := some .errCancelled }

/-- Translation of dbConn.Read: a set cancelled flag short-circuits with
driver.ErrBadConn before any deadline or socket call; otherwise the socket is
read and a socket error is latched and surfaced as driver.ErrBadConn.  The
returned triple is (count and error, new state, socket events performed). -/
def DbConn.read (c : DbConn) (sock : SocketOutcome) :
    (Nat × Option GoError) × DbConn × List SocketEvent :=
  if c.cancelled then ((0, some .errBadConn), c, [])
  else
    match sock.err with
    | none => ((sock.n, none), c, [.sockRead])
    | some e => ((sock.n, some .errBadConn),
        { c with lastError := some (.ioError e) }, [.sockRead])

/-- Translation of dbConn.Write, identical in structure to Read. -/
def DbConn.write (c : DbConn) (sock : SocketOutcome) :
    (Nat × Option GoError) × DbConn × List SocketEvent :=
  if c.cancelled then ((0, some .errBadConn), c, [])
  else
    match sock.err with
    | none => ((sock.n, none), c, [.sockWrite])
    | some e => ((sock.n, some .errBadConn),
        { c with lastError := some (.ioError e) }, [.sockWrite])

/-- Translation of conn.isBad restricted to the state it reads: true when the
dbConn has a latched last error, or when the last connection-level error is
not a structured HDB error. -/
def isBad (dbc : DbConn) (connLastError : Option GoError) : Bool :=
  if dbc.lastError.isSome then true
  else
    match connLastError with
    | some (.hdbError _ _) => false
    | some _ => true
    | none => false

/-- Translation of conn.IsValid: the negation of isBad (the surrounding
lock acquisition does not change the value). -/
def isValid (dbc : DbConn) (connLastError : Option GoError) : Bool :=
  !(isBad dbc connLastError)

end Conn

/-- C6: after cancel has set the cancelled flag, every subsequent Read and
Write returns driver.ErrBadConn with no socket event and leaves the state
unchanged (so the property persists for all later calls), and the connection
reports itself bad: isBad is true and IsValid is false, whatever the
connection-level last error is. -/
theorem dbConn_cancel_bad (c : Conn.DbConn) (sock : Conn.SocketOutcome)
    (connLastError : Option Conn.GoError) :
    (Conn.DbConn.cancel c).read sock = ((0, some .errBadConn), c.cancel, []) ∧
    (Conn.DbConn.cancel c).write sock = ((0, some .errBadConn), c.cancel, []) ∧
    Conn.isBad c.cancel connLastError = true ∧
    Conn.isValid c.cancel connLastError = false := by
  refine ⟨?_, ?_, ?_, ?_⟩
  · simp [Conn.DbConn.cancel, Conn.DbConn.read]
  · simp [Conn.DbConn.cancel, Conn.DbConn.write]
  · simp [Conn.DbConn.cancel, Conn.isBad]
  · simp [Conn.DbConn.cancel, Conn.isValid, Conn.isBad]

/-! ## Byte codec primitives

The encoding package is not among the provided sources; the primitives below
are modelled from the spec (section 4.1): typed little-endian reads and
writes of 8/16/32/64-bit integers and IEEE-754 f64 over a byte stream. -/

namespace Codec

/-- Modelled from the spec: the little-endian byte serialisation of the w-byte
word v (least significant byte first). -/
def wordLE : Nat → Nat → List Nat
  | 0, _ => []
  | w + 1, v => v % 256 :: wordLE w (v / 256)

/-- Modelled from the spec: the value of a little-endian byte list. -/
def unwordLE : List Nat → Nat
  | [] => 0
  | b :: bs => b + 256 * unwordLE bs

theorem length_wordLE (w v : Nat) : (wordLE w v).length = w := by
  induction w generalizing v with
  | zero => rfl
  | succ w ih => simp [wordLE, ih]

theorem unwordLE_wordLE (w v : Nat) : unwordLE (wordLE w v) = v % 256 ^ w := by
  induction w generalizing v with
  | zero => simp [wordLE, unwordLE, Nat.mod_one]
  | succ w ih =>
    have h256 : 256 ^ (w + 1) = 256 * 256 ^ w := by ring
    have key : v % (256 * 256 ^ w) = v % 256 + 256 * (v / 256 % 256 ^ w) := by
      have h1 := Nat.mod_mul_right_div_self v 256 (256 ^ w)
      have h2 : v % 256 = v % (256 * 256 ^ w) % 256 :=
        (Nat.mod_mod_of_dvd v ⟨256 ^ w, rfl⟩).symm
      rw [← h1, h2]
      exact (Nat.mod_add_div (v % (256 * 256 ^ w)) 256).symm
    simp [wordLE, unwordLE, ih, h256, key]

/-- Conversion of an Int to its unsigned residue modulo m, as performed by a
truncating Go integer conversion before serialisation. -/
def toUnsigned (m : Nat) (i : Int) : Nat := (i % (m : Int)).toNat

/-- Interpretation of an unsigned w-byte value as a signed integer (twos
complement), as performed by a Go signed integer read. -/
def toSigned (m : Nat) (n : Nat) : Int :=
  if n < m / 2 then (n : Int) else (n : Int) - m

/-- Consumption of exactly w bytes from a stream, failing on underflow. -/
def readN (w : Nat) (l : List Nat) : Option (List Nat × List Nat) :=
  if w ≤ l.length then some (l.take w, l.drop w) else none

theorem readN_append (l rest : List Nat) : readN l.length (l ++ rest) = some (l, rest) := by
  simp [readN]

end Codec

/-! ## Connect-option types (optType size / encode / decode, getOptType) -/

namespace Protocol

/-- Modelled from the spec: encoding.BooleanFieldSize (one byte). -/
def booleanFieldSize : Nat := 1

/-- Modelled from the spec: encoding.TinyintFieldSize (one byte). -/
def tinyintFieldSize : Nat := 1

/-- Modelled from the spec: encoding.IntegerFieldSize (four bytes). -/
def integerFieldSize : Nat := 4

/-- Modelled from the spec: encoding.BigintFieldSize (eight bytes). -/
def bigintFieldSize : Nat := 8

/-- Modelled from the spec: encoding.DoubleFieldSize (eight bytes). -/
def doubleFieldSize : Nat := 8

/-- Values a connect option can take, mirroring the Go dynamic types handled
by getOptType: bool, int8, int32, int64, float64, string and []byte.  A
float64 is represented by its IEEE-754 bit pattern, which is exactly what the
codec serialises (math.Float64bits) and deserialises (math.Float64frombits);
a string is represented by its byte content. -/
inductive OptValue where
  | boolean (b : Bool)
  | tinyint (i : Int)
  | integer (i : Int)
  | bigint (i : Int)
  | double (bits : Nat)
  | stringVal (s : List Nat)
  | bstring (s : List Nat)
deriving Repr, DecidableEq

/-- Tags of the seven optType singletons from the source. -/
inductive OptTypeTag where
  | booleanType
  | tinyintType
  | integerType
  | bigintType
  | doubleType
  | stringType
  | bstringType
deriving Repr, DecidableEq

/-- Translation of getOptType: the Go type switch on the dynamic value. -/
def getOptType : OptValue → OptTypeTag
  | .boolean _ => .booleanType
  | .tinyint _ => .tinyintType
  | .integer _ => .integerType
  | .bigint _ => .bigintType
  | .double _ => .doubleType
  | .stringVal _ => .stringType
  | .bstring _ => .bstringType

/-- Translation of the optType size methods: fixed field sizes for the
numeric types and 2 + content length (an int16 length plus the bytes) for
string and byte-string values. -/
def optTypeSize : OptValue → Nat
  | .boolean _ => booleanFieldSize
  | .tinyint _ => tinyintFieldSize
  | .integer _ => integerFieldSize
  | .bigint _ => bigintFieldSize
  | .double _ => doubleFieldSize
  | .stringVal s => 2 + s.length
  | .bstring s => 2 + s.length

/-- Translation of the optType encode methods over the spec-modelled codec:
Bool writes one byte 1 or 0, the integer types write their little-endian
twos-complement bytes, Double writes the eight bytes of the IEEE-754 bit
pattern, and string/byte values write an int16 length followed by the raw
bytes. -/
def optTypeEncode : OptValue → List Nat
  | .boolean b => [if b then 1 else 0]
  | .tinyint i => Codec.wordLE 1 (Codec.toUnsigned 256 i)
  | .integer i => Codec.wordLE 4 (Codec.toUnsigned 4294967296 i)
  | .bigint i => Codec.wordLE 8 (Codec.toUnsigned 18446744073709551616 i)
  | .double bits => Codec.wordLE 8 bits
  | .stringVal s => Codec.wordLE 2 (Codec.toUnsigned 65536 (s.length : Int)) ++ s
  | .bstring s => Codec.wordLE 2 (Codec.toUnsigned 65536 (s.length : Int)) ++ s

/-- Translation of the optType decode methods over the spec-modelled codec;
the string/byte decoders read an int16 length l and then l bytes (a negative
length would make the Go slice allocation panic, modelled as none). -/
def optTypeDecode : OptTypeTag → List Nat → Option (OptValue × List Nat)
  | .booleanType, l =>
    match Codec.readN 1 l with
    | some (bs, rest) => some (.boolean (Codec.unwordLE bs != 0), rest)
    | none => none
  | .tinyintType, l =>
    match Codec.readN 1 l with
    | some (bs, rest) => some (.tinyint (Codec.toSigned 256 (Codec.unwordLE bs)), rest)
    | none => none
  | .integerType, l =>
    match Codec.readN 4 l with
    | some (bs, rest) => some (.integer (Codec.toSigned 4294967296 (Codec.unwordLE bs)), rest)
    | none => none
  | .bigintType, l =>
    match Codec.readN 8 l with
    | some (bs, rest) =>
      some (.bigint (Codec.toSigned 18446744073709551616 (Codec.unwordLE bs)), rest)
    | none => none
  | .doubleType, l =>
    match Codec.readN 8 l with
    | some (bs, rest) => some (.double (Codec.unwordLE bs), rest)
    | none => none
  | .stringType, l =>
    match Codec.readN 2 l with
    | some (bs, rest) =>
      let len := Codec.toSigned 65536 (Codec.unwordLE bs)
      if len < 0 then none
      else
        match Codec.readN len.toNat rest with
        | some (s, rest2) => some (.stringVal s, rest2)
        | none => none
    | none => none
  | .bstringType, l =>
    match Codec.readN 2 l with
    | some (bs, rest) =>
      let len := Codec.toSigned 65536 (Codec.unwordLE bs)
      if len < 0 then none
      else
        match Codec.readN len.toNat rest with
        | some (s, rest2) => some (.bstring s, rest2)
        | none => none
    | none => none

/-- Range constraints under which a Go value of the corresponding static type
exists: int8/int32/int64 ranges, a 64-bit double bit pattern, and string or
byte content of at most MaxInt16 bytes (each a byte value). -/
def OptValue.wellFormed : OptValue → Prop
  | .boolean _ => True
  | .tinyint i => -128 ≤ i ∧ i < 128
  | .integer i => -2147483648 ≤ i ∧ i < 2147483648
  | .bigint i => -9223372036854775808 ≤ i ∧ i < 9223372036854775808
  | .double bits => bits < 18446744073709551616
  | .stringVal s => s.length ≤ 32767 ∧ ∀ b ∈ s, b < 256
  | .bstring s => s.length ≤ 32767 ∧ ∀ b ∈ s, b < 256

instance (v : OptValue) : Decidable v.wellFormed := by
  cases v <;> simp [OptValue.wellFormed] <;> infer_instance

end Protocol

/-- Reading w bytes from a stream beginning with a w-byte word takes exactly
that word. -/
theorem codec_readN_wordLE (w u : Nat) (rest : List Nat) :
    Codec.readN w (Codec.wordLE w u ++ rest) = some (Codec.wordLE w u, rest) := by
  have h := Codec.readN_append (Codec.wordLE w u) rest
  rwa [Codec.length_wordLE] at h

/-- Unsigned residues are below the modulus. -/
theorem codec_toUnsigned_lt (m : Nat) (i : Int) (hm : 0 < m) : Codec.toUnsigned m i < m := by
  unfold Codec.toUnsigned
  have hne : ((m : Nat) : Int) ≠ 0 := by omega
  have h2 := Int.emod_lt_of_pos i (by omega : (0 : Int) < ((m : Nat) : Int))
  omega

/-- Twos-complement interpretation inverts the truncating conversion on the
representable range. -/
theorem codec_toSigned_toUnsigned (h : Nat) (i : Int) (hpos : 0 < h)
    (hlo : -(h : Int) ≤ i) (hhi : i < (h : Int)) :
    Codec.toSigned (2 * h) (Codec.toUnsigned (2 * h) i) = i := by
  unfold Codec.toSigned Codec.toUnsigned
  rcases le_or_lt 0 i with hge | hlt
  · have hc : i % ((2 * h : Nat) : Int) = i :=
      Int.emod_eq_of_lt hge (by push_cast; omega)
    rw [hc, if_pos (by omega)]
    omega
  · have e1 := Int.add_mul_emod_self_left i ((2 * h : Nat) : Int) 1
    have e2 : (i + ((2 * h : Nat) : Int)) % ((2 * h : Nat) : Int) =
        i + ((2 * h : Nat) : Int) :=
      Int.emod_eq_of_lt (by push_cast; omega) (by push_cast; omega)
    have hc : i % ((2 * h : Nat) : Int) = i + ((2 * h : Nat) : Int) := by
      rw [mul_one] at e1
      omega
    rw [hc, if_neg (by omega)]
    push_cast
    omega

/-- C10: for every connect-option value of a supported type (bool, int8,
int32, int64, a float64 bit pattern, a string or byte slice of at most 32767
bytes), decoding the encoding through the option type selected by getOptType
yields the value again with the rest of the stream untouched, and the
encoding writes exactly size(v) bytes. -/
theorem optType_encode_decode_roundtrip (v : GoHdb.Protocol.OptValue) (rest : List Nat)
    (hwf : v.wellFormed) :
    GoHdb.Protocol.optTypeDecode (GoHdb.Protocol.getOptType v)
        (GoHdb.Protocol.optTypeEncode v ++ rest) = some (v, rest) ∧
    (GoHdb.Protocol.optTypeEncode v).length = GoHdb.Protocol.optTypeSize v := by
  cases v with
  | boolean b =>
    cases b <;>
      simp [GoHdb.Protocol.optTypeDecode, GoHdb.Protocol.optTypeEncode,
        GoHdb.Protocol.getOptType, GoHdb.Protocol.optTypeSize, Codec.readN,
        Codec.unwordLE, GoHdb.Protocol.booleanFieldSize]
  | tinyint i =>
    obtain ⟨h1, h2⟩ := hwf
    have hu : Codec.unwordLE (Codec.wordLE 1 (Codec.toUnsigned 256 i)) =
        Codec.toUnsigned 256 i := by
      rw [Codec.unwordLE_wordLE]
      exact Nat.mod_eq_of_lt (by simpa using codec_toUnsigned_lt 256 i (by omega))
    have hs := codec_toSigned_toUnsigned 128 i (by omega) (by push_cast; omega)
      (by push_cast; omega)
    refine ⟨?_, by simp [GoHdb.Protocol.optTypeEncode, Codec.length_wordLE,
      GoHdb.Protocol.optTypeSize, GoHdb.Protocol.tinyintFieldSize]⟩
    simp only [GoHdb.Protocol.optTypeEncode, GoHdb.Protocol.getOptType,
      GoHdb.Protocol.optTypeDecode, codec_readN_wordLE, hu]
    norm_num at hs ⊢
    rw [hs]
  | integer i =>
    obtain ⟨h1, h2⟩ := hwf
    have hu : Codec.unwordLE (Codec.wordLE 4 (Codec.toUnsigned 4294967296 i)) =
        Codec.toUnsigned 4294967296 i := by
      rw [Codec.unwordLE_wordLE]
      exact Nat.mod_eq_of_lt (by simpa using codec_toUnsigned_lt 4294967296 i (by omega))
    have hs := codec_toSigned_toUnsigned 2147483648 i (by omega) (by push_cast; omega)
      (by push_cast; omega)
    refine ⟨?_, by simp [GoHdb.Protocol.optTypeEncode, Codec.length_wordLE,
      GoHdb.Protocol.optTypeSize, GoHdb.Protocol.integerFieldSize]⟩
    simp only [GoHdb.Protocol.optTypeEncode, GoHdb.Protocol.getOptType,
      GoHdb.Protocol.optTypeDecode, codec_readN_wordLE, hu]
    norm_num at hs ⊢
    rw [hs]
  | bigint i =>
    obtain ⟨h1, h2⟩ := hwf
    have hu : Codec.unwordLE (Codec.wordLE 8 (Codec.toUnsigned 18446744073709551616 i)) =
        Codec.toUnsigned 18446744073709551616 i := by
      rw [Codec.unwordLE_wordLE]
      exact Nat.mod_eq_of_lt
        (by simpa using codec_toUnsigned_lt 18446744073709551616 i (by omega))
    have hs := codec_toSigned_toUnsigned 9223372036854775808 i (by omega)
      (by push_cast; omega) (by push_cast; omega)
    refine ⟨?_, by simp [GoHdb.Protocol.optTypeEncode, Codec.length_wordLE,
      GoHdb.Protocol.optTypeSize, GoHdb.Protocol.bigintFieldSize]⟩
    simp only [GoHdb.Protocol.optTypeEncode, GoHdb.Protocol.getOptType,
      GoHdb.Protocol.optTypeDecode, codec_readN_wordLE, hu]
    norm_num at hs ⊢
    rw [hs]
  | double bits =>
    have hu : Codec.unwordLE (Codec.wordLE 8 bits) = bits := by
      rw [Codec.unwordLE_wordLE]
      exact Nat.mod_eq_of_lt (by simpa using hwf)
    refine ⟨?_, by simp [GoHdb.Protocol.optTypeEncode, Codec.length_wordLE,
      GoHdb.Protocol.optTypeSize, GoHdb.Protocol.doubleFieldSize]⟩
    simp only [GoHdb.Protocol.optTypeEncode, GoHdb.Protocol.getOptType,
      GoHdb.Protocol.optTypeDecode, codec_readN_wordLE, hu]
  | stringVal s =>
    obtain ⟨h1, h2⟩ := hwf
    have hu : Codec.unwordLE (Codec.wordLE 2 (Codec.toUnsigned 65536 (s.length : Int))) =
        Codec.toUnsigned 65536 (s.length : Int) := by
      rw [Codec.unwordLE_wordLE]
      exact Nat.mod_eq_of_lt
        (by simpa using codec_toUnsigned_lt 65536 (s.length : Int) (by omega))
    have hs := codec_toSigned_toUnsigned 32768 (s.length : Int) (by omega)
      (by push_cast; omega) (by push_cast; omega)
    norm_num at hs
    refine ⟨?_, by simp [GoHdb.Protocol.optTypeEncode, Codec.length_wordLE,
      GoHdb.Protocol.optTypeSize]⟩
    simp only [GoHdb.Protocol.optTypeEncode, GoHdb.Protocol.getOptType,
      GoHdb.Protocol.optTypeDecode, List.append_assoc, codec_readN_wordLE, hu, hs]
    rw [if_neg (by omega)]
    simp [Codec.readN_append]
  | bstring s =>
    obtain ⟨h1, h2⟩ := hwf
    have hu : Codec.unwordLE (Codec.wordLE 2 (Codec.toUnsigned 65536 (s.length : Int))) =
        Codec.toUnsigned 65536 (s.length : Int) := by
      rw [Codec.unwordLE_wordLE]
      exact Nat.mod_eq_of_lt
        (by simpa using codec_toUnsigned_lt 65536 (s.length : Int) (by omega))
    have hs := codec_toSigned_toUnsigned 32768 (s.length : Int) (by omega)
      (by push_cast; omega) (by push_cast; omega)
    norm_num at hs
    refine ⟨?_, by simp [GoHdb.Protocol.optTypeEncode, Codec.length_wordLE,
      GoHdb.Protocol.optTypeSize]⟩
    simp only [GoHdb.Protocol.optTypeEncode, GoHdb.Protocol.getOptType,
      GoHdb.Protocol.optTypeDecode, List.append_assoc, codec_readN_wordLE, hu, hs]
    rw [if_neg (by omega)]
    simp [Codec.readN_append]

/-- Witness for C10: the round trip at the concrete values int32 -5,
float64 bit pattern 4611686018427387904 (the bits of 2.0) and the byte
string [1, 2, 255]. -/
theorem optType_encode_decode_roundtrip_witness :
    (GoHdb.Protocol.optTypeDecode
        (GoHdb.Protocol.getOptType (GoHdb.Protocol.OptValue.integer (-5)))
        (GoHdb.Protocol.optTypeEncode (GoHdb.Protocol.OptValue.integer (-5)) ++ [7]) =
      some (GoHdb.Protocol.OptValue.integer (-5), [7]) ∧
      (GoHdb.Protocol.optTypeEncode (GoHdb.Protocol.OptValue.integer (-5))).length =
        GoHdb.Protocol.optTypeSize (GoHdb.Protocol.OptValue.integer (-5))) ∧
    (GoHdb.Protocol.optTypeDecode
        (GoHdb.Protocol.getOptType (GoHdb.Protocol.OptValue.double 4611686018427387904))
        (GoHdb.Protocol.optTypeEncode
          (GoHdb.Protocol.OptValue.double 4611686018427387904) ++ []) =
      some (GoHdb.Protocol.OptValue.double 4611686018427387904, []) ∧
      (GoHdb.Protocol.optTypeEncode
          (GoHdb.Protocol.OptValue.double 4611686018427387904)).length =
        GoHdb.Protocol.optTypeSize (GoHdb.Protocol.OptValue.double 4611686018427387904)) ∧
    (GoHdb.Protocol.optTypeDecode
        (GoHdb.Protocol.getOptType (GoHdb.Protocol.OptValue.bstring [1, 2, 255]))
        (GoHdb.Protocol.optTypeEncode (GoHdb.Protocol.OptValue.bstring [1, 2, 255]) ++ []) =
      some (GoHdb.Protocol.OptValue.bstring [1, 2, 255], []) ∧
      (GoHdb.Protocol.optTypeEncode (GoHdb.Protocol.OptValue.bstring [1, 2, 255])).length =
        GoHdb.Protocol.optTypeSize (GoHdb.Protocol.OptValue.bstring [1, 2, 255])) :=
  ⟨optType_encode_decode_roundtrip (GoHdb.Protocol.OptValue.integer (-5)) [7] (by decide),
   optType_encode_decode_roundtrip
     (GoHdb.Protocol.OptValue.double 4611686018427387904) [] (by decide),
   optType_encode_decode_roundtrip (GoHdb.Protocol.OptValue.bstring [1, 2, 255]) []
     (by decide)⟩

/-! ## Bulk and many execute (stmt.execMany, conn._execBulk) -/

namespace Exec

/-- Results a package execution yields, mirroring the driver.Result values
conn._exec produces: driver.RowsAffected n for DML and driver.ResultNoRows
for DDL function codes. -/
inductive ExecResult where
  | rowsAffected (n : Int)
  | noRows
deriving Repr, DecidableEq

/-- Translation of Result.RowsAffected on the two result values the source
produces: driver.RowsAffected returns its value without error, while
driver.ResultNoRows returns 0 together with an error. -/
def rowsAffectedOf : ExecResult → Int × Option String
  | .rowsAffected n => (n, none)
  | .noRows => (0, some "no RowsAffected available after DDL statement")

/-- Translation of the package loop of stmt.execMany: the pending package
indices are processed in caller order; package p covers rows
[p*bulkSize, min(p*bulkSize+bulkSize, numRow)); each package is filled
(variant.fill, which may fail per row conversion) and executed (s.exec);
the affected-row count is added to the running total and any error stops the
loop, surfacing the partial total.  The returned trace lists the
(startRow, endRow) slice of every issued exec in order. -/
def execManyLoop (bulkSize numRow : Nat)
    (fill : Nat → Nat → Option String)
    (exec : Nat → Nat → Except String ExecResult) :
    List Nat → Int → List (Nat × Nat) → Int × Option String × List (Nat × Nat)
  | [], tot, trace => (tot, none, trace)
  | p :: ps, tot, trace =>
    let startRow := p * bulkSize
    let endRow := min (startRow + bulkSize) numRow
    match fill startRow endRow with
    | some e => (tot, some e, trace)
    | none =>
      match exec startRow endRow with
      | .error e => (tot, some e, trace ++ [(startRow, endRow)])
      | .ok r =>
        match (rowsAffectedOf r).2 with
        | some e => (tot + (rowsAffectedOf r).1, some e, trace ++ [(startRow, endRow)])
        | none =>
          execManyLoop bulkSize numRow fill exec ps
            (tot + (rowsAffectedOf r).1) (trace ++ [(startRow, endRow)])

/-- Translation of the package count computed by stmt.execMany:
numRow / bulkSize, plus one when the division has a remainder. -/
def numPack (bulkSize numRow : Nat) : Nat :=
  numRow / bulkSize + (if numRow % bulkSize = 0 then 0 else 1)

/-- Translation of stmt.execMany over the filled packages. -/
def execMany (bulkSize numRow : Nat) (fill : Nat → Nat → Option String)
    (exec : Nat → Nat → Except String ExecResult) :
    Int × Option String × List (Nat × Nat) :=
  execManyLoop bulkSize numRow fill exec (List.range (numPack bulkSize numRow)) 0 []

/-- Translation of the piecewise-LOB row loop of conn._execBulk (taken when a
parameter field is a LOB and more than one row is present).  For each row i
the loop asks whether the row has pending LOB data (hasNext, from
_fetchFirstLobChunk) and triggers an _exec of rows [lastFrom, to) when it has
or when i is the last row.  The source then adds to the
total only when the r.RowsAffected() call returns an error (its error check
is inverted: err != nil guards the accumulation totRowsAffected +=
rowsAffected), and continues when the _exec itself succeeded; when _exec fails the
source calls RowsAffected on a nil result, a run-time panic (modelled as an
error outcome). -/
def execBulkLoop (numColumns numRows : Nat) (hasNext : Nat → Bool)
    (exec : Nat → Nat → Except String ExecResult) :
    List Nat → Nat → Int → Int × Option String
  | [], _, tot => (tot, none)
  | i :: is, lastFrom, tot =>
    if hasNext i || i == numRows - 1 then
      let toIdx := (i + 1) * numColumns
      match exec lastFrom toIdx with
      | .error e => (tot, some ("panic: " ++ e))
      | .ok r =>
        let tot2 := if (rowsAffectedOf r).2.isSome then tot + (rowsAffectedOf r).1 else tot
        execBulkLoop numColumns numRows hasNext exec is toIdx tot2
    else execBulkLoop numColumns numRows hasNext exec is lastFrom tot

/-- Translation of the piecewise-LOB part of conn._execBulk: the row loop over
rows 0..numRows-1 starting with lastFrom = 0 and total 0. -/
def execBulkPiecewise (numColumns numRows : Nat) (hasNext : Nat → Bool)
    (exec : Nat → Nat → Except String ExecResult) : Int × Option String :=
  execBulkLoop numColumns numRows hasNext exec (List.range numRows) 0 0

end Exec

/-- C1 (failing input): a multi-row bulk execute with one LOB column, two
rows whose LOB data is complete (no pending chunk on any row), and a server
answering the single resulting sub-package (both rows) with 2 affected rows.
The piecewise loop of _execBulk returns 0 instead of the claimed sum 2,
because the source adds a package count to the total only when
RowsAffected() returns an error (and the added value is then 0); by contrast
the package loop of execMany itself does sum the counts (second conjunct:
one package of both rows, total 2). -/
theorem execBulk_piecewise_drops_rowsAffected :
    Exec.execBulkPiecewise 1 2 (fun _ => false)
        (fun _ _ => .ok (.rowsAffected 2)) = (0, none) ∧
    Exec.execMany 10000 2 (fun _ _ => none)
        (fun _ _ => .ok (.rowsAffected 2)) = (2, none, [(0, 2)]) ∧
    (0 : Int) ≠ 2 := by
  refine ⟨rfl, rfl, by decide⟩

/-! ## LOB download (conn.decodeLobs / conn._decodeLobs) -/

namespace Lob

/-- Fields of a LobOutDescr used by the download path: locator id, the
server-advertised character count, the char-based flag, the isLastData bit of
the options and the inline bytes. -/
structure LobOutDescr where
  id : Int
  numChar : Int
  isCharBased : Bool
  isLastData : Bool
  b : List Nat
deriving Repr, DecidableEq

/-- Fields of a ReadLobReply used by the download path. -/
structure LobReply where
  id : Int
  isLastData : Bool
  b : List Nat
deriving Repr, DecidableEq

/-- Fields of a ReadLobRequest as sent by the download path. -/
structure ReadLobReq where
  id : Int
  ofs : Int
  chunkSize : Int
deriving Repr, DecidableEq

/-- Translation of the chunkSize closure of conn._decodeLobs:
numChar - ofs, capped at lobChunkSize. -/
def goChunkSize (lobChunkSize numChar ofs : Int) : Int :=
  if numChar - ofs > lobChunkSize then lobChunkSize else numChar - ofs

/-- Translation of the request loop of conn._decodeLobs.  State: the pending
server replies, the running request offset (lobRequest.Ofs), the character
count ofs of the most recently received chunk, the eof flag, and accumulators
for the requests sent and the chunks written.  Each iteration adds ofs to the
request offset, computes the chunk size FROM THE LAST CHUNK COUNT ofs (not
from the cumulative offset), sends the request, checks the reply locator id,
writes the reply bytes, recounts and reads the next eof flag.  An exhausted
reply list models a transport read failure. -/
def decodeLobsLoop (cc : List Nat → Except String Int) (lobChunkSize numChar id : Int) :
    List LobReply → Int → Int → Bool → List ReadLobReq → List (List Nat) →
    Except String (List ReadLobReq × List (List Nat))
  | _, _, _, true, reqs, out => .ok (reqs, out)
  | [], _, _, false, _, _ => .error "read error: no reply"
  | r :: rest, reqOfs, ofs, false, reqs, out =>
    if r.id ≠ id then .error "internal error: invalid lob locator"
    else
      match cc r.b with
      | .error e => .error e
      | .ok ofs2 =>
        decodeLobsLoop cc lobChunkSize numChar id rest (reqOfs + ofs) ofs2 r.isLastData
          (reqs ++ [⟨id, reqOfs + ofs, goChunkSize lobChunkSize numChar ofs⟩])
          (out ++ [r.b])

/-- Translation of conn._decodeLobs: the inline bytes of the descriptor are
written first, their characters are counted, and the loop runs until a reply
carries isLastData.  The result collects the requests sent and the chunks
written in order. -/
def decodeLobsWith (cc : List Nat → Except String Int) (lobChunkSize : Int)
    (descr : LobOutDescr) (replies : List LobReply) :
    Except String (List ReadLobReq × List (List Nat)) :=
  match cc descr.b with
  | .error e => .error e
  | .ok ofs0 =>
    decodeLobsLoop cc lobChunkSize descr.numChar descr.id replies 0 ofs0
      descr.isLastData [] [descr.b]

/-- Translation of the byte-based countChars closure of conn.decodeLobs: one
byte counts as one character. -/
def countCharsByte (b : List Nat) : Except String Int := .ok (b.length : Int)

end Lob

/-- Counterexample for C2: a byte-based download with lobChunkSize 4, inline
bytes of length 3, numChar 10 and two reply chunks of 4 and 3 bytes.  The
second request carries the cumulative offset 7 but a chunk size of 4 computed
from the LAST chunk count (min(4, 10-4)), while the claim formula
min(lobChunkSize, numChar - ofs) with the cumulative ofs = 7 demands 3. -/
theorem decodeLobs_chunkSize_from_last_chunk_test :
    Lob.decodeLobsWith Lob.countCharsByte 4
        (Lob.LobOutDescr.mk 7 10 false false [0, 0, 0])
        [Lob.LobReply.mk 7 false [0, 0, 0, 0], Lob.LobReply.mk 7 true [0, 0, 0]] =
      .ok ([Lob.ReadLobReq.mk 7 3 4, Lob.ReadLobReq.mk 7 7 4],
        [[0, 0, 0], [0, 0, 0, 0], [0, 0, 0]]) ∧
    min (4 : Int) (10 - 7) = 3 ∧
    (4 : Int) ≠ 3 := by
  refine ⟨rfl, rfl, by decide⟩

/-! ## CESU-8 character counting

The cesu8 package is not among the provided sources; the decoder model below
is modelled from the spec (glossary: CESU-8 is the UTF-8 variant in which a
supplementary character is encoded as a surrogate pair of two 3-byte
surrogate encodings) and from the counting convention of section 4.7.  A
buffer that does not begin with a complete valid encoding is treated as the
fatal incomplete-rune case. -/

namespace Lob

/-- Modelled from the spec: the scalar value encoded by a 3-byte UTF-8 unit. -/
def surrVal (b0 b1 b2 : Nat) : Nat := (b0 - 224) * 4096 + (b1 - 128) * 64 + (b2 - 128)

/-- Modelled from the spec: size bookkeeping for a 3-byte unit starting a
CESU-8 buffer whose lead byte is 0xE0..0xEF — a plain BMP character (3), a
high surrogate followed by a complete low surrogate (6), or an invalid or
truncated sequence (none). -/
def threeByte (b0 b1 b2 : Nat) (rest2 : List Nat) : Option Nat :=
  if surrVal b0 b1 b2 < 2048 then none
  else if 55296 ≤ surrVal b0 b1 b2 ∧ surrVal b0 b1 b2 < 56320 then
    match rest2 with
    | c0 :: c1 :: c2 :: _ =>
      if 224 ≤ c0 ∧ c0 < 240 ∧ 128 ≤ c1 ∧ c1 < 192 ∧ 128 ≤ c2 ∧ c2 < 192 then
        if 56320 ≤ surrVal c0 c1 c2 ∧ surrVal c0 c1 c2 < 57344 then some 6 else none
      else none
    | _ => none
  else if 56320 ≤ surrVal b0 b1 b2 ∧ surrVal b0 b1 b2 < 57344 then none
  else some 3

/-- Modelled from the spec: the byte size of the complete CESU-8 encoding at
the head of the buffer (1, 2, 3 or 6), or none when the buffer is empty, ends
inside an encoding, or does not begin with a valid encoding. -/
def cesu8RuneSize : List Nat → Option Nat
  | [] => none
  | b0 :: rest =>
    if b0 < 128 then some 1
    else if b0 < 194 then none
    else if b0 < 224 then
      match rest with
      | b1 :: _ => if 128 ≤ b1 ∧ b1 < 192 then some 2 else none
      | _ => none
    else if b0 < 240 then
      match rest with
      | b1 :: b2 :: rest2 =>
        if 128 ≤ b1 ∧ b1 < 192 ∧ 128 ≤ b2 ∧ b2 < 192 then threeByte b0 b1 b2 rest2
        else none
      | _ => none
    else none

theorem cesu8RuneSize_pos (l : List Nat) (sz : Nat) (h : cesu8RuneSize l = some sz) :
    1 ≤ sz := by
  unfold cesu8RuneSize threeByte surrVal at h
  repeat' split at h
  all_goals (try simp_all)
  all_goals omega

/-- Fuel-driven translation of the char-based countChars closure of
conn.decodeLobs over the modelled CESU-8 decoder: while bytes remain, a
buffer not starting with a full rune is the fatal incomplete-rune error;
otherwise the rune is consumed, counting 1 character, or 2 when its encoded
size is 6 (the CESUMax surrogate-pair case).  The fuel argument makes the
recursion structural; countCharsCesu8 supplies the buffer length, which
suffices because a consumed rune takes at least one byte. -/
def countCharsCesu8Fuel : Nat → List Nat → Except String Int
  | _, [] => .ok 0
  | 0, _ :: _ => .error "lob chunk consists of incomplete CESU-8 runes"
  | fuel + 1, b :: bs =>
    match cesu8RuneSize (b :: bs) with
    | none => .error "lob chunk consists of incomplete CESU-8 runes"
    | some sz =>
      match countCharsCesu8Fuel fuel ((b :: bs).drop sz) with
      | .error e => .error e
      | .ok n => .ok (n + (if sz = 6 then 2 else 1))

/-- Translation of the char-based countChars closure of conn.decodeLobs. -/
def countCharsCesu8 (b : List Nat) : Except String Int :=
  countCharsCesu8Fuel b.length b

/-- Translation of the countChars dispatch of conn.decodeLobs: char-based
LOBs count CESU-8 characters in the HDB convention, byte-based LOBs count
bytes. -/
def decodeLobs (lobChunkSize : Int) (descr : LobOutDescr) (replies : List LobReply) :
    Except String (List ReadLobReq × List (List Nat)) :=
  decodeLobsWith (if descr.isCharBased then countCharsCesu8 else countCharsByte)
    lobChunkSize descr replies

/-- Modelled from the spec: the CESU-8 encoding of a Unicode scalar value —
the usual 1/2/3-byte UTF-8 forms below 0x10000 and a pair of two 3-byte
surrogate encodings for supplementary characters. -/
def enc3 (u : Nat) : List Nat := [224 + u / 4096, 128 + u / 64 % 64, 128 + u % 64]

/-- Modelled from the spec: CESU-8 encoding of one scalar value. -/
def cesu8EncodeChar (r : Nat) : List Nat :=
  if r < 128 then [r]
  else if r < 2048 then [192 + r / 64, 128 + r % 64]
  else if r < 65536 then enc3 r
  else enc3 (55296 + (r - 65536) / 1024) ++ enc3 (56320 + (r - 65536) % 1024)

/-- Modelled from the spec: CESU-8 encoding of a scalar value sequence. -/
def encodeCesu8 : List Nat → List Nat
  | [] => []
  | r :: rs => cesu8EncodeChar r ++ encodeCesu8 rs

/-- A Unicode scalar value: below 0x110000 and not a surrogate. -/
def ValidScalar (r : Nat) : Prop := r < 1114112 ∧ (r < 55296 ∨ 57344 ≤ r)

instance (r : Nat) : Decidable (ValidScalar r) := by
  unfold ValidScalar
  infer_instance

/-- Character count of a scalar sequence in the HDB convention: supplementary
characters (encoded as surrogate pairs) count twice, all others once. -/
def hdbCharCount : List Nat → Int
  | [] => 0
  | r :: rs => (if 65536 ≤ r then 2 else 1) + hdbCharCount rs

end Lob

namespace Lob

theorem runeSize1 (b0 : Nat) (rest : List Nat) (h : b0 < 128) :
    cesu8RuneSize (b0 :: rest) = some 1 := by
  simp [cesu8RuneSize, h]

theorem runeSize2 (b0 b1 : Nat) (rest : List Nat)
    (h0 : 194 ≤ b0) (h0b : b0 < 224) (h1 : 128 ≤ b1) (h1b : b1 < 192) :
    cesu8RuneSize (b0 :: b1 :: rest) = some 2 := by
  simp only [cesu8RuneSize]
  rw [if_neg (by omega), if_neg (by omega), if_pos h0b, if_pos ⟨h1, h1b⟩]

theorem runeSize3 (b0 b1 b2 : Nat) (rest2 : List Nat)
    (h0 : 224 ≤ b0) (h0b : b0 < 240)
    (hc : 128 ≤ b1 ∧ b1 < 192 ∧ 128 ≤ b2 ∧ b2 < 192)
    (hge : 2048 ≤ surrVal b0 b1 b2)
    (hnh : ¬(55296 ≤ surrVal b0 b1 b2 ∧ surrVal b0 b1 b2 < 56320))
    (hnl : ¬(56320 ≤ surrVal b0 b1 b2 ∧ surrVal b0 b1 b2 < 57344)) :
    cesu8RuneSize (b0 :: b1 :: b2 :: rest2) = some 3 := by
  simp only [cesu8RuneSize]
  rw [if_neg (by omega), if_neg (by omega), if_neg (by omega), if_pos h0b, if_pos hc]
  unfold threeByte
  rw [if_neg (by omega), if_neg hnh, if_neg hnl]

theorem runeSize6 (b0 b1 b2 c0 c1 c2 : Nat) (tail : List Nat)
    (h0 : 224 ≤ b0) (h0b : b0 < 240)
    (hc : 128 ≤ b1 ∧ b1 < 192 ∧ 128 ≤ b2 ∧ b2 < 192)
    (hhs : 55296 ≤ surrVal b0 b1 b2 ∧ surrVal b0 b1 b2 < 56320)
    (hc2 : 224 ≤ c0 ∧ c0 < 240 ∧ 128 ≤ c1 ∧ c1 < 192 ∧ 128 ≤ c2 ∧ c2 < 192)
    (hls : 56320 ≤ surrVal c0 c1 c2 ∧ surrVal c0 c1 c2 < 57344) :
    cesu8RuneSize (b0 :: b1 :: b2 :: c0 :: c1 :: c2 :: tail) = some 6 := by
  simp only [cesu8RuneSize]
  rw [if_neg (by omega), if_neg (by omega), if_neg (by omega), if_pos h0b, if_pos hc]
  unfold threeByte
  rw [if_neg (by omega), if_pos hhs]
  simp [hc2, hls]

theorem runeSizeNone1 (b0 : Nat) (h : 128 ≤ b0) : cesu8RuneSize [b0] = none := by
  simp only [cesu8RuneSize]
  rw [if_neg (by omega)]
  split_ifs <;> rfl

theorem runeSizeNone2 (b0 b1 : Nat) (h : 224 ≤ b0) : cesu8RuneSize [b0, b1] = none := by
  simp only [cesu8RuneSize]
  rw [if_neg (by omega), if_neg (by omega), if_neg (by omega)]
  split_ifs <;> rfl

theorem runeSizeNoneHigh (b0 b1 b2 : Nat) (rest2 : List Nat)
    (h0 : 224 ≤ b0) (h0b : b0 < 240)
    (hc : 128 ≤ b1 ∧ b1 < 192 ∧ 128 ≤ b2 ∧ b2 < 192)
    (hhs : 55296 ≤ surrVal b0 b1 b2 ∧ surrVal b0 b1 b2 < 56320)
    (hlen : rest2.length ≤ 2) :
    cesu8RuneSize (b0 :: b1 :: b2 :: rest2) = none := by
  simp only [cesu8RuneSize]
  rw [if_neg (by omega), if_neg (by omega), if_neg (by omega), if_pos h0b, if_pos hc]
  unfold threeByte
  rw [if_neg (by omega), if_pos hhs]
  rcases rest2 with _ | ⟨c0, _ | ⟨c1, _ | ⟨c2, t⟩⟩⟩ <;> first | rfl | (simp at hlen)

theorem cesu8EncodeChar_ne_nil (r : Nat) : cesu8EncodeChar r ≠ [] := by
  unfold cesu8EncodeChar enc3
  split_ifs <;> simp

theorem cesu8EncodeChar_length (r : Nat) :
    (cesu8EncodeChar r).length =
      if r < 128 then 1 else if r < 2048 then 2 else if r < 65536 then 3 else 6 := by
  unfold cesu8EncodeChar enc3
  split_ifs <;> simp

/-- The modelled CESU-8 decoder recognises the full encoding of any valid
scalar at the head of a buffer and reports its exact byte size. -/
theorem cesu8RuneSize_enc (r : Nat) (hv : ValidScalar r) (rest : List Nat) :
    cesu8RuneSize (cesu8EncodeChar r ++ rest) = some (cesu8EncodeChar r).length := by
  obtain ⟨hlt, hsur⟩ := hv
  by_cases h1 : r < 128
  · rw [show cesu8EncodeChar r = [r] by simp [cesu8EncodeChar, h1]]
    simp only [List.cons_append, List.nil_append, List.length_cons, List.length_nil]
    exact runeSize1 r rest h1
  · by_cases h2 : r < 2048
    · rw [show cesu8EncodeChar r = [192 + r / 64, 128 + r % 64] by
        simp [cesu8EncodeChar, h1, h2]]
      simp only [List.cons_append, List.nil_append, List.length_cons, List.length_nil]
      exact runeSize2 _ _ _ (by omega) (by omega) (by omega) (by omega)
    · by_cases h3 : r < 65536
      · rw [show cesu8EncodeChar r = enc3 r by simp [cesu8EncodeChar, h1, h2, h3]]
        simp only [enc3, List.cons_append, List.nil_append, List.length_cons,
          List.length_nil]
        have hval : surrVal (224 + r / 4096) (128 + r / 64 % 64) (128 + r % 64) = r := by
          unfold surrVal
          omega
        exact runeSize3 _ _ _ _ (by omega) (by omega) (by omega)
          (by rw [hval]; omega) (by rw [hval]; omega) (by rw [hval]; omega)
      · rw [show cesu8EncodeChar r =
            enc3 (55296 + (r - 65536) / 1024) ++ enc3 (56320 + (r - 65536) % 1024) by
          simp [cesu8EncodeChar, h1, h2, h3]]
        simp only [enc3, List.cons_append, List.nil_append, List.append_assoc,
          List.length_append, List.length_cons, List.length_nil]
        have hhi : surrVal (224 + (55296 + (r - 65536) / 1024) / 4096)
            (128 + (55296 + (r - 65536) / 1024) / 64 % 64)
            (128 + (55296 + (r - 65536) / 1024) % 64) = 55296 + (r - 65536) / 1024 := by
          unfold surrVal
          omega
        have hlo : surrVal (224 + (56320 + (r - 65536) % 1024) / 4096)
            (128 + (56320 + (r - 65536) % 1024) / 64 % 64)
            (128 + (56320 + (r - 65536) % 1024) % 64) = 56320 + (r - 65536) % 1024 := by
          unfold surrVal
          omega
        exact runeSize6 _ _ _ _ _ _ _ (by omega) (by omega) (by omega)
          (by rw [hhi]; omega) (by omega) (by rw [hlo]; omega)

end Lob

namespace Lob

theorem countCharsCesu8Fuel_eq (fuel : Nat) (l : List Nat) (h : l.length ≤ fuel) :
    countCharsCesu8Fuel fuel l = countCharsCesu8 l := by
  unfold countCharsCesu8
  induction fuel using Nat.strong_induction_on generalizing l with
  | _ fuel ih =>
    match fuel, l with
    | fuel, [] => cases fuel <;> rfl
    | 0, b :: bs => simp at h
    | fuel + 1, b :: bs =>
      cases hrs : cesu8RuneSize (b :: bs) with
      | none => simp only [List.length_cons, countCharsCesu8Fuel, hrs]
      | some sz =>
        have hsz := cesu8RuneSize_pos _ _ hrs
        have hlen : (b :: bs).length ≤ fuel + 1 := h
        simp only [List.length_cons] at hlen
        have hdl : ((b :: bs).drop sz).length ≤ fuel := by
          simp only [List.length_drop, List.length_cons]
          omega
        have hdl2 : ((b :: bs).drop sz).length ≤ bs.length := by
          simp only [List.length_drop, List.length_cons]
          omega
        simp only [List.length_cons, countCharsCesu8Fuel, hrs]
        rw [ih fuel (by omega) _ hdl, ih bs.length (by omega) _ hdl2]

/-- Helper matching the match in the counting loop: add a character count to
a successful partial count, pass errors through. -/
def addChars (c : Int) : Except String Int → Except String Int
  | .error e => .error e
  | .ok n => .ok (n + c)

theorem addChars_comp (a b : Int) (x : Except String Int) :
    addChars a (addChars b x) = addChars (b + a) x := by
  cases x <;> simp [addChars]
  omega

/-- Unfolding step of the char counter at a buffer whose head is a complete
rune of known size. -/
theorem countCharsCesu8_step (l : List Nat) (sz : Nat) (hne : l ≠ [])
    (hsz : cesu8RuneSize l = some sz) :
    countCharsCesu8 l = addChars (if sz = 6 then 2 else 1) (countCharsCesu8 (l.drop sz)) := by
  match l with
  | [] => exact absurd rfl hne
  | b :: bs =>
    conv_lhs => rw [countCharsCesu8]
    simp only [List.length_cons, countCharsCesu8Fuel, hsz]
    rw [countCharsCesu8Fuel_eq bs.length ((b :: bs).drop sz)
      (by simp only [List.length_drop, List.length_cons]
          have := cesu8RuneSize_pos _ _ hsz
          omega)]
    cases hd : countCharsCesu8 ((b :: bs).drop sz) <;> simp [addChars]

/-- Failure step of the char counter at a nonempty buffer that does not begin
with a complete rune. -/
theorem countCharsCesu8_incomplete (l : List Nat) (hne : l ≠ [])
    (hrs : cesu8RuneSize l = none) :
    countCharsCesu8 l = .error "lob chunk consists of incomplete CESU-8 runes" := by
  match l with
  | [] => exact absurd rfl hne
  | b :: bs =>
    conv_lhs => rw [countCharsCesu8]
    simp only [List.length_cons, countCharsCesu8Fuel, hrs]

/-- The char counter realises the HDB counting convention on any chunk that
is a concatenation of valid CESU-8 encodings followed by a suffix: the count
of the suffix plus one character per scalar, and one more for each
supplementary scalar (the 6-byte surrogate-pair encodings). -/
theorem countCharsCesu8_encode_append (rs : List Nat) (suffix : List Nat)
    (h : ∀ r ∈ rs, ValidScalar r) :
    countCharsCesu8 (encodeCesu8 rs ++ suffix) =
      addChars (hdbCharCount rs) (countCharsCesu8 suffix) := by
  induction rs with
  | nil =>
    simp only [encodeCesu8, List.nil_append, hdbCharCount]
    cases hc : countCharsCesu8 suffix <;> simp [addChars]
  | cons r rs ih =>
    have hv : ValidScalar r := h r (by simp)
    have hrest : ∀ x ∈ rs, ValidScalar x := fun x hx => h x (by simp [hx])
    have hsz := cesu8RuneSize_enc r hv (encodeCesu8 rs ++ suffix)
    have hne : cesu8EncodeChar r ++ (encodeCesu8 rs ++ suffix) ≠ [] := by
      intro hcontr
      exact cesu8EncodeChar_ne_nil r (List.append_eq_nil.mp hcontr).1
    have hlen := cesu8EncodeChar_length r
    simp only [encodeCesu8, List.append_assoc]
    rw [countCharsCesu8_step _ _ hne hsz, List.drop_left, ih hrest, addChars_comp]
    congr 1
    simp only [hdbCharCount]
    by_cases h6 : 65536 ≤ r
    · rw [if_pos (by rw [hlen, if_neg (by omega), if_neg (by omega), if_neg (by omega)]),
        if_pos h6]
      omega
    · rw [if_neg (by rw [hlen]; split_ifs <;> omega), if_neg h6]
      omega

end Lob

namespace Lob

/-- The decoder reports none on every strict nonempty front part of a valid
encoding cut at the byte k. -/
theorem cesu8RuneSize_take_none (r : Nat) (hv : ValidScalar r) (k : Nat)
    (hk0 : 0 < k) (hk : k < (cesu8EncodeChar r).length) :
    cesu8RuneSize ((cesu8EncodeChar r).take k) = none := by
  obtain ⟨hlt, hsur⟩ := hv
  have hlen := cesu8EncodeChar_length r
  by_cases h1 : r < 128
  · rw [hlen] at hk
    simp [h1] at hk
    omega
  · by_cases h2 : r < 2048
    · have hk1 : k = 1 := by
        rw [hlen] at hk
        simp [h1, h2] at hk
        omega
      subst hk1
      rw [show cesu8EncodeChar r = [192 + r / 64, 128 + r % 64] by
        simp [cesu8EncodeChar, h1, h2]]
      simp only [List.take_succ_cons, List.take_zero]
      exact runeSizeNone1 _ (by omega)
    · by_cases h3 : r < 65536
      · have hk12 : k = 1 ∨ k = 2 := by
          rw [hlen] at hk
          simp [h1, h2, h3] at hk
          omega
        rw [show cesu8EncodeChar r = enc3 r by simp [cesu8EncodeChar, h1, h2, h3]]
        simp only [enc3]
        rcases hk12 with hk1 | hk2
        · subst hk1
          simp only [List.take_succ_cons, List.take_zero]
          exact runeSizeNone1 _ (by omega)
        · subst hk2
          simp only [List.take_succ_cons, List.take_zero]
          exact runeSizeNone2 _ _ (by omega)
      · have hk5 : k = 1 ∨ k = 2 ∨ k = 3 ∨ k = 4 ∨ k = 5 := by
          rw [hlen] at hk
          simp [h1, h2, h3] at hk
          omega
        rw [show cesu8EncodeChar r =
            enc3 (55296 + (r - 65536) / 1024) ++ enc3 (56320 + (r - 65536) % 1024) by
          simp [cesu8EncodeChar, h1, h2, h3]]
        simp only [enc3, List.cons_append, List.nil_append]
        have hhi : surrVal (224 + (55296 + (r - 65536) / 1024) / 4096)
            (128 + (55296 + (r - 65536) / 1024) / 64 % 64)
            (128 + (55296 + (r - 65536) / 1024) % 64) = 55296 + (r - 65536) / 1024 := by
          unfold surrVal
          omega
        rcases hk5 with h | h | h | h | h <;> subst h <;>
          simp only [List.take_succ_cons, List.take_zero]
        · exact runeSizeNone1 _ (by omega)
        · exact runeSizeNone2 _ _ (by omega)
        · exact runeSizeNoneHigh _ _ _ _ (by omega) (by omega) (by omega)
            (by rw [hhi]; omega) (by simp)
        · exact runeSizeNoneHigh _ _ _ _ (by omega) (by omega) (by omega)
            (by rw [hhi]; omega) (by simp)
        · exact runeSizeNoneHigh _ _ _ _ (by omega) (by omega) (by omega)
            (by rw [hhi]; omega) (by simp)

/-- A chunk consisting of valid encodings followed by a truncated encoding
makes the char counter fail with the incomplete-rune error. -/
theorem countCharsCesu8_truncated (rs : List Nat) (hval : ∀ x ∈ rs, ValidScalar x)
    (r : Nat) (hv : ValidScalar r) (k : Nat) (hk0 : 0 < k)
    (hk : k < (cesu8EncodeChar r).length) :
    countCharsCesu8 (encodeCesu8 rs ++ (cesu8EncodeChar r).take k) =
      .error "lob chunk consists of incomplete CESU-8 runes" := by
  rw [countCharsCesu8_encode_append rs _ hval]
  rw [countCharsCesu8_incomplete _ ?_ (cesu8RuneSize_take_none r hv k hk0 hk)]
  · rfl
  · intro hc
    have hlc := congrArg List.length hc
    rw [List.length_take] at hlc
    simp only [List.length_nil] at hlc
    omega

/-- Requests the download loop sends: one per reply; each request offset is
reqOfs plus the count of the chunk received just before it, and each chunk
size is computed from that same last-chunk count. -/
def reqsSpec (lobChunkSize numChar id : Int) : Int → Int → List Int → List ReadLobReq
  | _, _, [] => []
  | reqOfs, prev, c :: cs =>
    ⟨id, reqOfs + prev, goChunkSize lobChunkSize numChar prev⟩ ::
      reqsSpec lobChunkSize numChar id (reqOfs + prev) c cs

theorem reqsSpec_length (lcs nc id : Int) (cs : List Int) :
    ∀ (reqOfs prev : Int), (reqsSpec lcs nc id reqOfs prev cs).length = cs.length := by
  induction cs with
  | nil => intro _ _; simp [reqsSpec]
  | cons c cs ih => intro reqOfs prev; simp [reqsSpec, ih]

theorem reqsSpec_getElem (lcs nc id : Int) (cs : List Int) :
    ∀ (reqOfs prev : Int) (k : Nat), k < cs.length →
      (reqsSpec lcs nc id reqOfs prev cs)[k]? =
        some ⟨id, reqOfs + ((prev :: cs).take (k + 1)).sum,
          goChunkSize lcs nc ((prev :: cs).getD k 0)⟩ := by
  induction cs with
  | nil => intro _ _ k hk; simp at hk
  | cons c cs ih =>
    intro reqOfs prev k hk
    cases k with
    | zero => simp [reqsSpec, List.getD]
    | succ k =>
      simp only [reqsSpec, List.getElem?_cons_succ]
      rw [ih (reqOfs + prev) c k (by simpa using hk)]
      have hofs : reqOfs + prev + ((c :: cs).take (k + 1)).sum =
          reqOfs + ((prev :: c :: cs).take (k + 1 + 1)).sum := by
        simp only [List.take_succ_cons, List.sum_cons]
        ring
      have hgd : (c :: cs).getD k 0 = (prev :: c :: cs).getD (k + 1) 0 := by
        simp [List.getD]
      rw [hofs, hgd]

end Lob

namespace Lob

/-- Success run of the download loop: with matching locator ids, chunk counts
given by counts, and isLastData set exactly on the final reply, the loop
consumes every reply, writes every chunk in order, and sends the requests
described by reqsSpec. -/
theorem decodeLobsLoop_ok (cc : List Nat → Except String Int) (lcs nc id : Int)
    (replies : List LobReply) :
    ∀ (counts : List Int),
      List.Forall₂ (fun (r : LobReply) (c : Int) => cc r.b = .ok c) replies counts →
      (∀ r ∈ replies, r.id = id) →
      (∀ (i : Nat) (r : LobReply), replies[i]? = some r →
        (r.isLastData = true ↔ i = replies.length - 1)) →
      replies ≠ [] →
      ∀ (reqOfs prev : Int) (reqs0 : List ReadLobReq) (out0 : List (List Nat)),
      decodeLobsLoop cc lcs nc id replies reqOfs prev false reqs0 out0 =
        .ok (reqs0 ++ reqsSpec lcs nc id reqOfs prev counts,
          out0 ++ replies.map (fun r => r.b)) := by
  induction replies with
  | nil => intro _ _ _ _ hne; exact absurd rfl hne
  | cons r rest ih =>
    intro counts hFor hid hstop _ reqOfs prev reqs0 out0
    cases hFor with
    | cons hcc hFor2 =>
      rename_i c cs
      have hidr : ¬r.id ≠ id := by
        simp [hid r (by simp)]
      rw [decodeLobsLoop, if_neg hidr]
      simp only [hcc]
      cases rest with
      | nil =>
        have hlast : r.isLastData = true := by
          have h0 := hstop 0 r (by simp)
          simp at h0
          exact h0
        cases hFor2 with
        | nil =>
          rw [hlast, decodeLobsLoop]
          simp [reqsSpec]
      | cons r2 rest2 =>
        have hlast : r.isLastData = false := by
          have h0 := hstop 0 r (by simp)
          simp at h0
          exact h0
        rw [hlast]
        rw [ih cs hFor2 (fun x hx => hid x (by simp [hx]))
          (fun i x hx => by
            have hs := hstop (i + 1) x (by simpa using hx)
            have hilt : i < (r2 :: rest2).length := by
              by_contra hge
              rw [List.getElem?_eq_none (by omega)] at hx
              exact Option.noConfusion hx
            simp only [List.length_cons] at hs ⊢
            rw [hs]
            omega) (by simp)]
        simp [reqsSpec, List.append_assoc]

end Lob

namespace Lob

/-- Error run of the download loop: after any number of good replies (ids
matching, counts succeeding, isLastData unset), a reply whose chunk count
fails surfaces that error. -/
theorem decodeLobsLoop_err (cc : List Nat → Except String Int) (lcs nc id : Int)
    (good : List LobReply) :
    ∀ (counts : List Int),
      List.Forall₂ (fun (r : LobReply) (c : Int) => cc r.b = .ok c) good counts →
      (∀ r ∈ good, r.id = id) →
      (∀ r ∈ good, r.isLastData = false) →
      ∀ (rbad : LobReply), rbad.id = id →
      ∀ (e : String), cc rbad.b = .error e →
      ∀ (restAfter : List LobReply) (reqOfs prev : Int)
        (reqs0 : List ReadLobReq) (out0 : List (List Nat)),
      decodeLobsLoop cc lcs nc id (good ++ rbad :: restAfter) reqOfs prev false reqs0 out0 =
        .error e := by
  induction good with
  | nil =>
    intro counts hFor _ _ rbad hidb e hbad restAfter reqOfs prev reqs0 out0
    rw [List.nil_append, decodeLobsLoop, if_neg (by simp [hidb])]
    simp only [hbad]
  | cons r rest ih =>
    intro counts hFor hid hnl rbad hidb e hbad restAfter reqOfs prev reqs0 out0
    cases hFor with
    | cons hcc hFor2 =>
      rw [List.cons_append, decodeLobsLoop, if_neg (by simp [hid r (by simp)])]
      simp only [hcc, hnl r (by simp)]
      exact ih _ hFor2 (fun x hx => hid x (by simp [hx]))
        (fun x hx => hnl x (by simp [hx])) rbad hidb e hbad restAfter _ _ _ _

end Lob

/-- C2 (amended): for every LOB download the driver first writes the inline
bytes of the LobOutDescr and then, until a reply with isLastData is observed,
sends ReadLobRequest(id, ofs, chunkSize) where the offset ofs is the
cumulative count of characters already received, and chunkSize =
min(lobChunkSize, numChar - c) computed from the count c of the most recently
received chunk (this equals the claimed min(lobChunkSize, numChar - ofs) on
the first request only); character counts follow the HDB convention (for
char-based LOBs every BMP encoding, in particular a 3-byte CESU-8 encoding,
counts as 1 character and a 6-byte surrogate-pair encoding counts as 2; for
byte-based LOBs one byte counts as 1), and a received chunk ending inside a
CESU-8 encoding makes the download fail with an error. -/
theorem decodeLobsWith_ok_start (cc : List Nat → Except String Int) (lcs : Int)
    (descr : Lob.LobOutDescr) (replies : List Lob.LobReply) (c0 : Int)
    (h : cc descr.b = .ok c0) :
    Lob.decodeLobsWith cc lcs descr replies =
      Lob.decodeLobsLoop cc lcs descr.numChar descr.id replies 0 c0
        descr.isLastData [] [descr.b] := by
  unfold Lob.decodeLobsWith
  rw [h]

theorem decodeLobs_download_spec
    (cc : List Nat → Except String Int) (lcs : Int)
    (descr : Lob.LobOutDescr) (replies : List Lob.LobReply)
    (counts : List Int) (c0 : Int) :
    (descr.isLastData = true → cc descr.b = .ok c0 →
      Lob.decodeLobsWith cc lcs descr replies = .ok ([], [descr.b])) ∧
    (descr.isLastData = false →
      cc descr.b = .ok c0 →
      List.Forall₂ (fun (r : Lob.LobReply) (c : Int) => cc r.b = .ok c) replies counts →
      (∀ r ∈ replies, r.id = descr.id) →
      (∀ (i : Nat) (r : Lob.LobReply), replies[i]? = some r →
        (r.isLastData = true ↔ i = replies.length - 1)) →
      replies ≠ [] →
      ∃ reqs, Lob.decodeLobsWith cc lcs descr replies =
          .ok (reqs, descr.b :: replies.map (fun r => r.b)) ∧
        reqs.length = replies.length ∧
        ∀ k : Nat, k < reqs.length →
          reqs[k]? = some ⟨descr.id, ((c0 :: counts).take (k + 1)).sum,
            Lob.goChunkSize lcs descr.numChar ((c0 :: counts).getD k 0)⟩) ∧
    (∀ e : String, cc descr.b = .error e →
      Lob.decodeLobsWith cc lcs descr replies = .error e) ∧
    (descr.isLastData = false →
      ∀ (good : List Lob.LobReply) (goodCounts : List Int) (rbad : Lob.LobReply)
        (restAfter : List Lob.LobReply) (e : String),
      cc descr.b = .ok c0 →
      replies = good ++ rbad :: restAfter →
      List.Forall₂ (fun (r : Lob.LobReply) (c : Int) => cc r.b = .ok c) good goodCounts →
      (∀ r ∈ good, r.id = descr.id) →
      (∀ r ∈ good, r.isLastData = false) →
      rbad.id = descr.id →
      cc rbad.b = .error e →
      Lob.decodeLobsWith cc lcs descr replies = .error e) ∧
    (∀ chunk : List Nat, Lob.countCharsByte chunk = .ok (chunk.length : Int)) ∧
    (∀ rs : List Nat, (∀ x ∈ rs, Lob.ValidScalar x) →
      Lob.countCharsCesu8 (Lob.encodeCesu8 rs) = .ok (Lob.hdbCharCount rs)) ∧
    (∀ rs : List Nat, (∀ x ∈ rs, Lob.ValidScalar x) →
      ∀ r : Nat, Lob.ValidScalar r →
      ∀ k : Nat, 0 < k → k < (Lob.cesu8EncodeChar r).length →
      Lob.countCharsCesu8 (Lob.encodeCesu8 rs ++ (Lob.cesu8EncodeChar r).take k) =
        .error "lob chunk consists of incomplete CESU-8 runes") ∧
    (Lob.decodeLobs lcs descr replies =
      Lob.decodeLobsWith
        (if descr.isCharBased then Lob.countCharsCesu8 else Lob.countCharsByte)
        lcs descr replies) := by
  refine ⟨?_, ?_, ?_, ?_, ?_, ?_, ?_, ?_⟩
  · intro hlast hc0
    rw [decodeLobsWith_ok_start cc lcs descr replies c0 hc0, hlast]
    cases replies <;> rfl
  · intro hlast hc0 hFor hid hstop hne
    refine ⟨Lob.reqsSpec lcs descr.numChar descr.id 0 c0 counts, ?_, ?_, ?_⟩
    · rw [decodeLobsWith_ok_start cc lcs descr replies c0 hc0, hlast,
        Lob.decodeLobsLoop_ok cc lcs descr.numChar descr.id replies counts hFor hid hstop hne]
      simp
    · rw [Lob.reqsSpec_length]
      exact List.Forall₂.length_eq hFor |>.symm
    · intro k hk
      rw [Lob.reqsSpec_length] at hk
      rw [Lob.reqsSpec_getElem lcs descr.numChar descr.id counts 0 c0 k hk]
      congr 2
      omega
  · intro e he
    unfold Lob.decodeLobsWith
    rw [he]
  · intro hlast good goodCounts rbad restAfter e hc0 hsplit hFor hid hnl hidb hbad
    rw [decodeLobsWith_ok_start cc lcs descr replies c0 hc0, hlast, hsplit,
      Lob.decodeLobsLoop_err cc lcs descr.numChar descr.id good goodCounts hFor hid hnl
        rbad hidb e hbad restAfter]
  · intro chunk
    rfl
  · intro rs hval
    have h := Lob.countCharsCesu8_encode_append rs [] hval
    rw [List.append_nil] at h
    rw [h]
    show Lob.addChars (Lob.hdbCharCount rs) (.ok 0) = _
    simp [Lob.addChars]
  · intro rs hval r hv k hk0 hk
    exact Lob.countCharsCesu8_truncated rs hval r hv k hk0 hk
  · rfl
/-- Witness for C2: the download spec at the concrete byte-based download of
the counterexample trace, at an already-complete descriptor, at a failing
count, and the CESU-8 counting facts at the scalars 97 (1 byte), 20013
(3 bytes) and 128512 (6-byte surrogate pair), with a truncation of the
surrogate pair after 4 bytes. -/
theorem decodeLobs_download_spec_witness :
    ((Lob.LobOutDescr.mk 7 10 false true [0, 0, 0]).isLastData = true →
      Lob.countCharsByte (Lob.LobOutDescr.mk 7 10 false true [0, 0, 0]).b = .ok 3 →
      Lob.decodeLobsWith Lob.countCharsByte 4 (Lob.LobOutDescr.mk 7 10 false true [0, 0, 0])
        [] = .ok ([], [[0, 0, 0]])) ∧
    (∃ reqs,
      Lob.decodeLobsWith Lob.countCharsByte 4 (Lob.LobOutDescr.mk 7 10 false false [0, 0, 0])
          [Lob.LobReply.mk 7 false [0, 0, 0, 0], Lob.LobReply.mk 7 true [0, 0, 0]] =
        .ok (reqs, (Lob.LobOutDescr.mk 7 10 false false [0, 0, 0]).b ::
          List.map (fun r => r.b)
            [Lob.LobReply.mk 7 false [0, 0, 0, 0], Lob.LobReply.mk 7 true [0, 0, 0]]) ∧
      reqs.length =
        ([Lob.LobReply.mk 7 false [0, 0, 0, 0], Lob.LobReply.mk 7 true [0, 0, 0]]).length ∧
      ∀ k : Nat, k < reqs.length →
        reqs[k]? = some ⟨(Lob.LobOutDescr.mk 7 10 false false [0, 0, 0]).id,
          ((((3 : Int) :: [4, 3])).take (k + 1)).sum,
          Lob.goChunkSize 4 (Lob.LobOutDescr.mk 7 10 false false [0, 0, 0]).numChar
            (((3 : Int) :: [4, 3]).getD k 0)⟩) ∧
    (Lob.decodeLobsWith (fun _ => .error "boom") 4
        (Lob.LobOutDescr.mk 7 10 false false [0, 0, 0])
        [Lob.LobReply.mk 7 false [0, 0, 0, 0], Lob.LobReply.mk 7 true [0, 0, 0]] =
      .error "boom") ∧
    (Lob.countCharsCesu8 (Lob.encodeCesu8 [97, 20013, 128512]) =
      .ok (Lob.hdbCharCount [97, 20013, 128512])) ∧
    (Lob.countCharsCesu8 (Lob.encodeCesu8 [97] ++ (Lob.cesu8EncodeChar 128512).take 4) =
      .error "lob chunk consists of incomplete CESU-8 runes") :=
  ⟨(decodeLobs_download_spec Lob.countCharsByte 4
      (Lob.LobOutDescr.mk 7 10 false true [0, 0, 0]) [] [] 3).1,
   (decodeLobs_download_spec Lob.countCharsByte 4
      (Lob.LobOutDescr.mk 7 10 false false [0, 0, 0])
      [Lob.LobReply.mk 7 false [0, 0, 0, 0], Lob.LobReply.mk 7 true [0, 0, 0]]
      [4, 3] 3).2.1 rfl rfl
      (List.Forall₂.cons rfl (List.Forall₂.cons rfl List.Forall₂.nil))
      (by decide)
      (by
        intro i r h
        rcases i with _ | ⟨_ | i⟩
        · simp at h
          subst h
          simp
        · simp at h
          subst h
          simp
        · simp at h)
      (by decide),
   (decodeLobs_download_spec (fun _ => .error "boom") 4
      (Lob.LobOutDescr.mk 7 10 false false [0, 0, 0])
      [Lob.LobReply.mk 7 false [0, 0, 0, 0], Lob.LobReply.mk 7 true [0, 0, 0]]
      [] 0).2.2.1 "boom" rfl,
   (decodeLobs_download_spec Lob.countCharsByte 0
      (Lob.LobOutDescr.mk 0 0 false false []) [] [] 0).2.2.2.2.2.1
      [97, 20013, 128512] (by decide),
   (decodeLobs_download_spec Lob.countCharsByte 0
      (Lob.LobOutDescr.mk 0 0 false false []) [] [] 0).2.2.2.2.2.2.1
      [97] (by decide) 128512 (by decide) 4 (by decide) (by decide)⟩
/-! ## DSN parsing (parseDSN) -/

namespace Dsn

/-- Translation of the TLSPrms structure of dsn.go. -/
structure TLSPrms where
  serverName : String
  insecureSkipVerify : Bool
  rootCAFiles : List String
deriving Repr, DecidableEq

/-- Translation of the DSN structure of dsn.go; the two Duration fields hold
seconds times the Duration unit, kept abstract as an Int multiple. -/
structure DSN where
  host : String
  username : String
  password : String
  defaultSchema : String
  timeout : Int
  pingInterval : Int
  tls : Option TLSPrms
deriving Repr, DecidableEq

/-- Translation of the DSN parameter name constants. -/
def DSNDefaultSchema : String := "defaultSchema"

def DSNTimeout : String := "timeout"

def DSNPingInterval : String := "pingInterval"

def DSNTLSRootCAFile : String := "TLSRootCAFile"

def DSNTLSServerName : String := "TLSServerName"

def DSNTLSInsecureSkipVerify : String := "TLSInsecureSkipVerify"

/-- The recognised query parameter keys of parseDSN. -/
def recognizedKeys : List String :=
  [DSNDefaultSchema, DSNTimeout, DSNPingInterval, DSNTLSServerName,
    DSNTLSInsecureSkipVerify, DSNTLSRootCAFile]

/-- Modelled from the spec: decimal digit accumulation of strconv.Atoi. -/
def digitsVal : List Char → Nat → Option Nat
  | [], acc => some acc
  | c :: cs, acc =>
    if 48 ≤ c.toNat ∧ c.toNat ≤ 57 then digitsVal cs (acc * 10 + (c.toNat - 48))
    else none

/-- Modelled from the spec: strconv.Atoi on an optional sign followed by
decimal digits (the overflow check of the stdlib is not modelled; the claims
do not depend on it). -/
def atoi (s : String) : Option Int :=
  match s.data with
  | [] => none
  | c :: cs =>
    if c.toNat = 45 then
      match cs with
      | [] => none
      | _ => (digitsVal cs 0).map (fun n => -(n : Int))
    else if c.toNat = 43 then
      match cs with
      | [] => none
      | _ => (digitsVal cs 0).map (fun n => (n : Int))
    else (digitsVal (c :: cs) 0).map (fun n => (n : Int))

/-- Modelled from the spec: strconv.ParseBool. -/
def parseBool (s : String) : Option Bool :=
  if s = "1" ∨ s = "t" ∨ s = "T" ∨ s = "TRUE" ∨ s = "true" ∨ s = "True" then some true
  else if s = "0" ∨ s = "f" ∨ s = "F" ∨ s = "FALSE" ∨ s = "false" ∨ s = "False" then
    some false
  else none

/-- Error messages of dsn.go. -/
def parameterNotSupportedMsg (k : String) : String :=
  "parameter " ++ k ++ " is not supported"

def invalidNumberOfParametersMsg (k : String) (act exp : Nat) : String :=
  "invalid number of parameters for " ++ k ++ " " ++ toString act ++
    " - expected " ++ toString exp

def invalidNumberOfParametersRangeMsg (k : String) (act lo hi : Nat) : String :=
  "invalid number of parameters for " ++ k ++ " " ++ toString act ++
    " - expected " ++ toString lo ++ " - " ++ toString hi

def invalidNumberOfParametersMinMsg (k : String) (act lo : Nat) : String :=
  "invalid number of parameters for " ++ k ++ " " ++ toString act ++
    " - expected at least " ++ toString lo

def parseErrorMsg (k v : String) : String := "failed to parse " ++ k ++ ": " ++ v

/-- Translation of one arm of the query switch of parseDSN: processes one
key with its value list against the DSN built so far.  The nil tls pointer of
the source corresponds to none; setting a TLS field materialises the default
TLSPrms first, as the source does. -/
def applyPrm (dsn : DSN) (k : String) (v : List String) : Except String DSN :=
  if k = DSNDefaultSchema then
    if v.length ≠ 1 then .error (invalidNumberOfParametersMsg k v.length 1)
    else .ok { dsn with defaultSchema := v.headD "" }
  else if k = DSNTimeout then
    if v.length ≠ 1 then .error (invalidNumberOfParametersMsg k v.length 1)
    else
      match atoi (v.headD "") with
      | none => .error (parseErrorMsg k (v.headD ""))
      | some t => .ok { dsn with timeout := t }
  else if k = DSNPingInterval then
    if v.length ≠ 1 then .error (invalidNumberOfParametersMsg k v.length 1)
    else
      match atoi (v.headD "") with
      | none => .error (parseErrorMsg k (v.headD ""))
      | some t => .ok { dsn with pingInterval := t }
  else if k = DSNTLSServerName then
    if v.length ≠ 1 then .error (invalidNumberOfParametersMsg k v.length 1)
    else
      let t := dsn.tls.getD ⟨"", false, []⟩
      .ok { dsn with tls := some { t with serverName := v.headD "" } }
  else if k = DSNTLSInsecureSkipVerify then
    if v.length > 1 then .error (invalidNumberOfParametersRangeMsg k v.length 0 1)
    else
      match (if v.length > 0 ∧ v.headD "" ≠ "" then parseBool (v.headD "") else some true) with
      | none => .error (parseErrorMsg k (v.headD ""))
      | some b =>
        let t := dsn.tls.getD ⟨"", false, []⟩
        .ok { dsn with tls := some { t with insecureSkipVerify := b } }
  else if k = DSNTLSRootCAFile then
    if v.length = 0 then .error (invalidNumberOfParametersMinMsg k v.length 1)
    else
      let t := dsn.tls.getD ⟨"", false, []⟩
      .ok { dsn with tls := some { t with rootCAFiles := v } }
  else .error (parameterNotSupportedMsg k)

/-- Translation of the query loop of parseDSN over one iteration order of the
Go query map (the range order over a Go map is unspecified; the order is an
input here). -/
def parseDSNQuery : DSN → List (String × List String) → Except String DSN
  | dsn, [] => .ok dsn
  | dsn, (k, v) :: rest =>
    match applyPrm dsn k v with
    | .error e => .error e
    | .ok dsn2 => parseDSNQuery dsn2 rest

/-- Result of url.Parse as far as parseDSN consumes it: host, user info and
the parsed query in one iteration order. -/
structure URLParts where
  host : String
  username : String
  password : String
  query : List (String × List String)
deriving Repr, DecidableEq

/-- Translation of parseDSN: the empty string is rejected first; a url.Parse
failure (supplied as an input, since the URL grammar is outside the model) is
wrapped into a ParseError; otherwise the query parameters are folded over the
DSN seeded with host and user info. -/
def parseDSN (s : String) (parsed : Except String URLParts) : Except String DSN :=
  if s = "" then .error "invalid parameter - DSN is empty"
  else
    match parsed with
    | .error e => .error e
    | .ok u => parseDSNQuery ⟨u.host, u.username, u.password, "", 0, 0, none⟩ u.query

theorem applyPrm_unknown (dsn : DSN) (k : String) (v : List String)
    (h : k ∉ recognizedKeys) :
    applyPrm dsn k v = .error (parameterNotSupportedMsg k) := by
  simp only [recognizedKeys, List.mem_cons, List.mem_singleton, not_or] at h
  unfold applyPrm
  rw [if_neg h.1, if_neg h.2.1, if_neg h.2.2.1, if_neg h.2.2.2.1, if_neg h.2.2.2.2.1,
    if_neg h.2.2.2.2.2.1]

theorem parseDSNQuery_err_of_unknown (q : List (String × List String)) :
    ∀ (dsn : DSN), (∃ p ∈ q, p.1 ∉ recognizedKeys) →
      ∃ e, parseDSNQuery dsn q = .error e := by
  induction q with
  | nil => intro _ h; simp at h
  | cons p rest ih =>
    intro dsn h
    obtain ⟨k, v⟩ := p
    cases hstep : applyPrm dsn k v with
    | error e => exact ⟨e, by rw [parseDSNQuery, hstep]⟩
    | ok dsn2 =>
      obtain ⟨p2, hp2, hbad⟩ := h
      rcases List.mem_cons.mp hp2 with heq | hmem
      · subst heq
        rw [applyPrm_unknown dsn k v hbad] at hstep
        exact Except.noConfusion hstep
      · obtain ⟨e, he⟩ := ih dsn2 ⟨p2, hmem, hbad⟩
        exact ⟨e, by rw [parseDSNQuery, hstep]; exact he⟩

theorem parseDSNQuery_first_unknown (q1 : List (String × List String)) :
    ∀ (dsn : DSN) (kbad : String) (vbad : List String) (q2 : List (String × List String)),
      kbad ∉ recognizedKeys →
      (∀ p ∈ q1, ∀ d : DSN, ∃ d2, applyPrm d p.1 p.2 = .ok d2) →
      parseDSNQuery dsn (q1 ++ (kbad, vbad) :: q2) =
        .error (parameterNotSupportedMsg kbad) := by
  induction q1 with
  | nil =>
    intro dsn kbad vbad q2 hbad _
    rw [List.nil_append, parseDSNQuery, applyPrm_unknown dsn kbad vbad hbad]
  | cons p q1 ih =>
    intro dsn kbad vbad q2 hbad hok
    obtain ⟨d2, hd2⟩ := hok p (by simp) dsn
    rw [List.cons_append]
    obtain ⟨k, v⟩ := p
    rw [parseDSNQuery, hd2]
    exact ih d2 kbad vbad q2 hbad (fun x hx d => hok x (by simp [hx]) d)

end Dsn

/-- Counterexample for C8: a DSN whose query holds both a malformed
recognised parameter (timeout=x) and an unknown key (foo).  Under the
iteration order that visits timeout first — the range order over the Go query
map is unspecified, so this order is possible — parseDSN reports the timeout
parse error, not "parameter foo is not supported", refuting the claim that
any DSN containing an unknown key yields the not-supported message. -/
theorem parseDSN_unknown_key_not_first_test :
    Dsn.parseDSN "hdb://u:p@h?timeout=x&foo=1"
        (.ok (Dsn.URLParts.mk "h" "u" "p" [("timeout", ["x"]), ("foo", ["1"])])) =
      .error "failed to parse timeout: x" ∧
    "failed to parse timeout: x" ≠ "parameter foo is not supported" := by
  refine ⟨rfl, by decide⟩

/-- C8 (amended): parseDSN on the empty string fails with "invalid parameter
- DSN is empty"; a DSN whose query contains a key outside the recognised set
produces a parse error and no DSN value, and the error message is
"parameter <key> is not supported" provided every query parameter processed
before the unknown key is well formed (the iteration order over the query
map is unspecified in the source; with another malformed parameter present
the reported error may be that one instead). -/
theorem parseDSN_empty_and_unknown_key
    (s : String) (parsed : Except String Dsn.URLParts) (u : Dsn.URLParts)
    (q1 q2 : List (String × List String)) (kbad : String) (vbad : List String) :
    Dsn.parseDSN "" parsed = .error "invalid parameter - DSN is empty" ∧
    (s ≠ "" → parsed = .ok u → kbad ∉ Dsn.recognizedKeys →
      u.query = q1 ++ (kbad, vbad) :: q2 →
      (∃ e, Dsn.parseDSN s parsed = .error e) ∧
      ((∀ p ∈ q1, ∀ d : Dsn.DSN, ∃ d2, Dsn.applyPrm d p.1 p.2 = .ok d2) →
        Dsn.parseDSN s parsed = .error ("parameter " ++ kbad ++ " is not supported"))) := by
  constructor
  · unfold Dsn.parseDSN
    rw [if_pos rfl]
  · intro hs hp hbad hq
    have hred : Dsn.parseDSN s parsed =
        Dsn.parseDSNQuery ⟨u.host, u.username, u.password, "", 0, 0, none⟩ u.query := by
      unfold Dsn.parseDSN
      rw [if_neg hs, hp]
    constructor
    · rw [hred, hq]
      exact Dsn.parseDSNQuery_err_of_unknown _ _ ⟨(kbad, vbad), by simp, hbad⟩
    · intro hok
      rw [hred, hq]
      exact Dsn.parseDSNQuery_first_unknown q1 _ kbad vbad q2 hbad hok

/-- Witness for C8: the empty DSN and the DSN hdb://h?foo=1 with the single
unknown key foo. -/
theorem parseDSN_empty_and_unknown_key_witness :
    Dsn.parseDSN "" (.ok (Dsn.URLParts.mk "h" "" "" [("foo", ["1"])])) =
      .error "invalid parameter - DSN is empty" ∧
    (∃ e, Dsn.parseDSN "hdb://h?foo=1"
        (.ok (Dsn.URLParts.mk "h" "" "" [("foo", ["1"])])) = .error e) ∧
    Dsn.parseDSN "hdb://h?foo=1" (.ok (Dsn.URLParts.mk "h" "" "" [("foo", ["1"])])) =
      .error ("parameter " ++ "foo" ++ " is not supported") := by
  have h := parseDSN_empty_and_unknown_key "hdb://h?foo=1"
    (.ok (Dsn.URLParts.mk "h" "" "" [("foo", ["1"])]))
    (Dsn.URLParts.mk "h" "" "" [("foo", ["1"])]) [] [] "foo" ["1"]
  have h2 := h.2 (by decide) rfl (by decide) rfl
  exact ⟨h.1, h2.1, h2.2 (fun p hp => absurd hp (by simp))⟩
end GoHdb
